import Mathlib

/-!
# Verification of `gtfs2geojson.py`

A shallow embedding of the GTFS-to-GeoJSON converter: the stop-times
aggregation (`trip_times`), shape assembly (`shapes`, `shape_lengths`),
trip reference counting (`trips_ref`, `route_time`), best-shape selection,
the routes feature loop (`gtfs_routes`) and the stops feature loop
(`gtfs_stops`).  Fallible Python operations (KeyError, IndexError,
ValueError, TypeError, failed assertions, Decimal parse failures) are
modelled with `Except String`.  Python dictionaries are modelled as
association lists with insert-or-overwrite semantics; `timedelta` values
and `total_seconds()` results are modelled as integer second counts.
-/

namespace Gtfs

/-- Association-list read, modelling Python `d[k]` / `k in d`. -/
def dictLookup {κ α : Type} [DecidableEq κ] : List (κ × α) → κ → Option α
  | [], _ => none
  | (k', v) :: rest, k => if k' = k then some v else dictLookup rest k

/-- Association-list insert-or-overwrite, modelling Python `d[k] = v`. -/
def dictInsert {κ α : Type} [DecidableEq κ] : List (κ × α) → κ → α → List (κ × α)
  | [], k, v => [(k, v)]
  | (k', v') :: rest, k, v =>
    if k' = k then (k, v) :: rest else (k', v') :: dictInsert rest k v

/-- Left fold in `Except`, modelling a Python `for` loop whose body may raise. -/
def foldE {σ ρ : Type} (f : σ → ρ → Except String σ) : σ → List ρ → Except String σ
  | s, [] => Except.ok s
  | s, r :: rs =>
    match f s r with
    | Except.error e => Except.error e
    | Except.ok s' => foldE f s' rs

/-! ## Text parsing: Python `int()`, `Decimal()`, `str.split` -/

/-- Numeric value of a decimal digit character. -/
def digitVal (c : Char) : Nat := c.toNat - 48

/-- All characters are decimal digits. -/
def allDigits (l : List Char) : Bool := l.all (fun c => c.isDigit)

/-- Value of a digit string, most-significant first. -/
def digitsToNat (l : List Char) : Nat := l.foldl (fun n c => n * 10 + digitVal c) 0

/-- Strip leading and trailing spaces (Python `int()`/`Decimal()` accept them). -/
def stripSpaces (l : List Char) : List Char :=
  ((l.dropWhile (fun c => c = ' ')).reverse.dropWhile (fun c => c = ' ')).reverse

/-- Non-negative integer literal: non-empty run of digits. -/
def natCore (l : List Char) : Option Nat :=
  if l ≠ [] ∧ allDigits l then some (digitsToNat l) else none

/-- Python `int(text)`: optional sign, then digits; `none` models `ValueError`. -/
def pyInt (s : List Char) : Option Int :=
  match stripSpaces s with
  | '-' :: rest => (natCore rest).map (fun n => -(n : Int))
  | '+' :: rest => (natCore rest).map (fun n => (n : Int))
  | t => (natCore t).map (fun n => (n : Int))

/-- Python `str.split(sep)` for a one-character separator. -/
def splitChar (sep : Char) : List Char → List (List Char)
  | [] => [[]]
  | c :: rest =>
    if c = sep then [] :: splitChar sep rest
    else
      match splitChar sep rest with
      | [] => [[c]]
      | g :: gs => (c :: g) :: gs

/-- Unsigned decimal literal (`Decimal()` body): digits with an optional
point, at least one digit overall; value as an exact rational. -/
def decCore (l : List Char) : Option ℚ :=
  match splitChar '.' l with
  | [a] => (natCore a).map (fun n => (n : ℚ))
  | [a, b] =>
    (natCore (a ++ b)).map (fun n => (n : ℚ) / (10 : ℚ) ^ b.length)
  | _ => none

/-- Python `Decimal(text)` on the character list: optional sign then a
decimal literal; `none` models `decimal.InvalidOperation`. -/
def decOfChars (s : List Char) : Option ℚ :=
  match stripSpaces s with
  | '-' :: rest => (decCore rest).map (fun q => -q)
  | '+' :: rest => decCore rest
  | t => decCore t

/-- `Decimal(text)` on a string. -/
def parseDec (s : String) : Option ℚ := decOfChars s.toList

/-- `time_as_timedelta` on the character list: split on `:`, require exactly
three integer fields `h:m:s`, return total seconds (hours may exceed 23 and
are not wrapped).  `none` models the `ValueError` swallowed by the source. -/
def timeChars (l : List Char) : Option Int :=
  match splitChar ':' l with
  | [a, b, c] =>
    match pyInt a, pyInt b, pyInt c with
    | some h, some m, some s => some (h * 3600 + m * 60 + s)
    | _, _, _ => none
  | _ => none

/-- `time_as_timedelta(time)`: the timedelta is its total second count. -/
def time_as_timedelta (s : String) : Option Int := timeChars s.toList

/-! ## Stop-times aggregation (`trip_times`) -/

/-- One stop-times row, after column resolution: `trip_id`, `arrival_time`,
`departure_time`, `stop_sequence` cells. -/
structure StRow where
  trip_id : String
  arrival_time : String
  departure_time : String
  stop_sequence : String
deriving DecidableEq

/-- Per-trip window, modelling the list
`[earliest seq, latest seq, departure at earliest, arrival at latest]`. -/
structure TW where
  es : Option Int
  ls : Option Int
  dep : Option Int
  arr : Option Int
deriving DecidableEq

/-- The two `if` updates of `trip_times[trip]` for a valid row with
sequence `q`, departure `d`, arrival `a`. -/
def twUpdate (w : TW) (q d a : Int) : TW :=
  let w1 : TW :=
    match w.es with
    | none => { w with es := some q, dep := some d }
    | some e => if e > q then { w with es := some q, dep := some d } else w
  match w1.ls with
  | none => { w1 with ls := some q, arr := some a }
  | some lv => if lv < q then { w1 with ls := some q, arr := some a } else w1

/-- One iteration of the stop-times loop: create the all-`None` entry on
first sight of the trip, skip the row if either time is malformed, raise
(`ValueError`) on a malformed `stop_sequence`, otherwise update the window. -/
def tripTimesStep (tt : List (String × TW)) (r : StRow) : Except String (List (String × TW)) :=
  let tt1 :=
    match dictLookup tt r.trip_id with
    | none => dictInsert tt r.trip_id ⟨none, none, none, none⟩
    | some _ => tt
  match time_as_timedelta r.arrival_time, time_as_timedelta r.departure_time with
  | some a, some d =>
    match pyInt r.stop_sequence.toList with
    | none => Except.error "ValueError: invalid stop_sequence"
    | some q =>
      match dictLookup tt1 r.trip_id with
      | none => Except.error "unreachable: entry was just created"
      | some w => Except.ok (dictInsert tt1 r.trip_id (twUpdate w q d a))
  | _, _ => Except.ok tt1

/-- The whole stop-times pass building `trip_times`. -/
def gtfsTripTimes (rows : List StRow) : Except String (List (String × TW)) :=
  foldE tripTimesStep [] rows

/-! ## Shape assembly (`shapes`, `shape_lengths`) -/

/-- One shapes row, after column resolution.  `dist` is the
`shape_dist_traveled` cell and is only consulted when the column exists. -/
structure ShRow where
  shape_id : String
  pt_lat : String
  pt_lng : String
  pt_seq : String
  dist : String
deriving DecidableEq

/-- State of the shapes loop: per-shape point dictionary keyed by sequence
number, and per-shape maximum declared length. -/
structure ShapesAcc where
  shapes : List (String × List (Int × (ℚ × ℚ)))
  shape_lengths : List (String × ℚ)
deriving DecidableEq

/-- The "Calculate length according to GTFS" block: when the distance
column exists and the cell is non-empty, decode it and keep the per-shape
maximum. -/
def shapeLengthsUpd (hasDist : Bool) (lens : List (String × ℚ)) (r : ShRow) :
    Except String (List (String × ℚ)) :=
  if hasDist ∧ r.dist ≠ "" then
    match parseDec r.dist with
    | none => Except.error "InvalidOperation: bad shape_dist_traveled"
    | some len =>
      match dictLookup lens r.shape_id with
      | none => Except.ok (dictInsert lens r.shape_id len)
      | some old =>
        Except.ok (if old < len then dictInsert lens r.shape_id len else lens)
  else Except.ok lens

/-- One iteration of the shapes loop: store `(lng, lat)` under the parsed
sequence number (overwriting a duplicate), then run the length update. -/
def shapesStep (hasDist : Bool) (st : ShapesAcc) (r : ShRow) : Except String ShapesAcc :=
  let pts :=
    match dictLookup st.shapes r.shape_id with
    | none => []
    | some l => l
  match pyInt r.pt_seq.toList, parseDec r.pt_lng, parseDec r.pt_lat with
  | some q, some lng, some lat =>
    match shapeLengthsUpd hasDist st.shape_lengths r with
    | Except.error e => Except.error e
    | Except.ok lens' =>
      Except.ok
        { shapes := dictInsert st.shapes r.shape_id (dictInsert pts q (lng, lat)),
          shape_lengths := lens' }
  | _, _, _ => Except.error "ValueError/InvalidOperation: bad shapes row"

/-- The whole shapes pass. -/
def buildShapes (hasDist : Bool) (rows : List ShRow) : Except String ShapesAcc :=
  foldE (shapesStep hasDist) ⟨[], []⟩ rows

/-- Insert one keyed point into an ascending-by-key list. -/
def insertAsc (x : Int × (ℚ × ℚ)) : List (Int × (ℚ × ℚ)) → List (Int × (ℚ × ℚ))
  | [] => [x]
  | y :: ys => if x.1 ≤ y.1 then x :: y :: ys else y :: insertAsc x ys

/-- Sort a keyed point list by ascending key; models `keys.sort()` followed
by dictionary lookups (the inner dictionary has pairwise-distinct keys). -/
def sortByKey : List (Int × (ℚ × ℚ)) → List (Int × (ℚ × ℚ))
  | [] => []
  | x :: xs => insertAsc x (sortByKey xs)

/-- Flatten one shape's point dictionary into the emitted polyline. -/
def assembleLine (pts : List (Int × (ℚ × ℚ))) : List (ℚ × ℚ) :=
  (sortByKey pts).map Prod.snd

/-- Replace every shape's point dictionary by its polyline (the in-place
`shapes[shape_id] = shape` rewrite). -/
def assembleLines (shapes : List (String × List (Int × (ℚ × ℚ)))) :
    List (String × List (ℚ × ℚ)) :=
  shapes.map (fun p => (p.1, assembleLine p.2))

/-! ## Trips pass (`trips_ref`, `route_time`) and best-shape selection -/

/-- One trips row, after column resolution. -/
structure TripRow where
  route_id : String
  shape_id : String
  trip_id : String
deriving DecidableEq

/-- State of the trips loop: per-route shape reference counters and the
route's representative time window. -/
structure TripsAcc where
  trips_ref : List (String × List (String × Nat))
  route_time : List (String × TW)
deriving DecidableEq

/-- One iteration of the trips loop.  On the first row of a route the
route's window is fixed to `trip_times[trip_id]` (a missing trip raises
`KeyError`); then the row's shape counter is created if needed and
incremented. -/
def tripsRefStep (trip_times : List (String × TW)) (st : TripsAcc) (r : TripRow) :
    Except String TripsAcc :=
  match dictLookup st.trips_ref r.route_id with
  | none =>
    match dictLookup trip_times r.trip_id with
    | none => Except.error "KeyError: trip_times"
    | some w =>
      Except.ok
        { trips_ref := dictInsert st.trips_ref r.route_id [(r.shape_id, 1)],
          route_time := dictInsert st.route_time r.route_id w }
  | some cands =>
    let c :=
      match dictLookup cands r.shape_id with
      | none => 0
      | some c => c
    let cands' := dictInsert cands r.shape_id (c + 1)
    Except.ok { st with trips_ref := dictInsert st.trips_ref r.route_id cands' }

/-- The whole trips pass. -/
def buildTripsRef (trip_times : List (String × TW)) (rows : List TripRow) :
    Except String TripsAcc :=
  foldE (tripsRefStep trip_times) ⟨[], []⟩ rows

/-- The inner selection loop: starting from `(None, 0)`, take a candidate
whenever its count is strictly greater than the best so far. -/
def selectShape (cands : List (String × Nat)) : Option String × Nat :=
  cands.foldl (fun best p => if best.2 < p.2 then (some p.1, p.2) else best) (none, 0)

/-- One iteration of the outer selection loop, with the
`assert popular_shape is not None` modelled as an error. -/
def selectStep (acc : List (String × String)) (rc : String × List (String × Nat)) :
    Except String (List (String × String)) :=
  match (selectShape rc.2).1 with
  | none => Except.error "AssertionError: no shape for route"
  | some s => Except.ok (dictInsert acc rc.1 s)

/-- The outer selection loop over `trips_ref`, building `trips`. -/
def selectShapes (tr : List (String × List (String × Nat))) :
    Except String (List (String × String)) :=
  foldE selectStep [] tr

/-! ## Routes feature loop -/

/-- A property value in the emitted feature: route/stop table cells are
strings; `shape_refs` is a count, `shape_length` a decimal, `duration_sec`
an integer second count. -/
inductive PVal where
  | s (v : String)
  | n (v : Nat)
  | q (v : ℚ)
  | i (v : Int)
deriving DecidableEq

/-- An emitted line feature: geometry, properties, identifier. -/
structure Feature where
  geometry : List (ℚ × ℚ)
  props : List (String × PVal)
  fid : String
deriving DecidableEq

/-- One iteration of the property loop: skip excluded column names, read
`row[i]` (raising `IndexError` past the row's end), keep non-empty cells. -/
def propsStep (exclude : List String) (row : List String)
    (props : List (String × String)) (p : Nat × String) :
    Except String (List (String × String)) :=
  if p.2 ∈ exclude then Except.ok props
  else
    match row.get? p.1 with
    | none => Except.error "IndexError: row shorter than header"
    | some v => Except.ok (if v ≠ "" then dictInsert props p.2 v else props)

/-- The property loop `for i, h in enumerate(header): ...`. -/
def mkProps (exclude : List String) (header row : List String) :
    Except String (List (String × String)) :=
  foldE (propsStep exclude row) [] header.enum

/-- The body of the routes loop for one routes row: build the properties,
return `none` (warn and skip) when the route resolved no shape, otherwise
attach `shape_id`, `shape_refs`, conditionally `shape_length`, and
`duration_sec`, then the geometry.  Each Python runtime error becomes an
`Except.error`. -/
def routeFeature? (hasDist : Bool) (shapeLines : List (String × List (ℚ × ℚ)))
    (shape_lengths : List (String × ℚ)) (trips_ref : List (String × List (String × Nat)))
    (route_time : List (String × TW)) (trips : List (String × String))
    (header : List String) (ricol : Nat) (row : List String) :
    Except String (Option Feature) :=
  match mkProps [] header row with
  | Except.error e => Except.error e
  | Except.ok props0 =>
    match row.get? ricol with
    | none => Except.error "IndexError: route_id cell"
    | some rid =>
      match dictLookup trips rid with
      | none => Except.ok none
      | some shape =>
        let props1 : List (String × PVal) := props0.map (fun p => (p.1, PVal.s p.2))
        let props2 := dictInsert props1 "shape_id" (PVal.s shape)
        match dictLookup trips_ref rid with
        | none => Except.error "KeyError: trips_ref"
        | some cands =>
          match dictLookup cands shape with
          | none => Except.error "KeyError: shape count"
          | some refs =>
            let props3 := dictInsert props2 "shape_refs" (PVal.n refs)
            let props4E : Except String (List (String × PVal)) :=
              if hasDist ∧ shape_lengths ≠ [] then
                match dictLookup shape_lengths shape with
                | none => Except.error "KeyError: shape_lengths"
                | some len => Except.ok (dictInsert props3 "shape_length" (PVal.q len))
              else Except.ok props3
            match props4E with
            | Except.error e => Except.error e
            | Except.ok props4 =>
              match dictLookup route_time rid with
              | none => Except.error "KeyError: route_time"
              | some w =>
                match w.arr, w.dep with
                | some a, some d =>
                  let props5 := dictInsert props4 "duration_sec" (PVal.i (a - d))
                  match dictLookup shapeLines shape with
                  | none => Except.error "KeyError: shapes"
                  | some line =>
                    Except.ok (some { geometry := line, props := props5, fid := rid })
                | _, _ => Except.error "TypeError: route time window is None"

/-- Output of the routes loop: emitted features, and the rows named by
"route has no trips, skipping" warnings. -/
structure RouteOut where
  features : List Feature
  warnings : List (List String)
deriving DecidableEq

/-- One iteration of the routes loop: a skipped row is recorded as a
warning, an emitted feature is appended. -/
def routesStep (hasDist : Bool) (shapeLines : List (String × List (ℚ × ℚ)))
    (shape_lengths : List (String × ℚ)) (trips_ref : List (String × List (String × Nat)))
    (route_time : List (String × TW)) (trips : List (String × String))
    (header : List String) (ricol : Nat) (st : RouteOut) (row : List String) :
    Except String RouteOut :=
  match routeFeature? hasDist shapeLines shape_lengths trips_ref route_time trips
      header ricol row with
  | Except.error e => Except.error e
  | Except.ok none => Except.ok { st with warnings := st.warnings ++ [row] }
  | Except.ok (some f) => Except.ok { st with features := st.features ++ [f] }

/-- `header.index(name)`: position of the first matching column. -/
def colIndex (header : List String) (name : String) : Option Nat :=
  header.findIdx? (fun h => h == name)

/-- `gtfs_routes`: the full routes-mode pipeline over the four decoded
tables.  `hasDist` records whether `shape_dist_traveled` was in the shapes
header; the routes table is passed as raw header and rows because its
property loop iterates the header. -/
def gtfs_routes (stopTimes : List StRow) (hasDist : Bool) (shapeRows : List ShRow)
    (tripRows : List TripRow) (routesHeader : List String)
    (routeRows : List (List String)) : Except String RouteOut :=
  match gtfsTripTimes stopTimes with
  | Except.error e => Except.error e
  | Except.ok trip_times =>
    match buildShapes hasDist shapeRows with
    | Except.error e => Except.error e
    | Except.ok acc =>
      let shapeLines := assembleLines acc.shapes
      match buildTripsRef trip_times tripRows with
      | Except.error e => Except.error e
      | Except.ok tacc =>
        match selectShapes tacc.trips_ref with
        | Except.error e => Except.error e
        | Except.ok trips =>
          match colIndex routesHeader "route_id" with
          | none => Except.error "ValueError: route_id not in header"
          | some ricol =>
            foldE
              (routesStep hasDist shapeLines acc.shape_lengths tacc.trips_ref
                tacc.route_time trips routesHeader ricol)
              ⟨[], []⟩ routeRows

/-! ## Stops feature loop -/

/-- An emitted point feature: `coord` is the `(longitude, latitude)` pair. -/
structure StopFeature where
  coord : ℚ × ℚ
  props : List (String × String)
  fid : String
deriving DecidableEq

/-- The body of the stops loop for one row: decode the two coordinates as
decimals, build the properties excluding `stop_lat`/`stop_lon`, read the
identifier cell. -/
def stopFeature (header : List String) (latCol lngCol idCol : Nat)
    (row : List String) : Except String StopFeature :=
  match row.get? latCol, row.get? lngCol with
  | some latS, some lngS =>
    match parseDec latS, parseDec lngS with
    | some lat, some lng =>
      match mkProps ["stop_lat", "stop_lon"] header row with
      | Except.error e => Except.error e
      | Except.ok props =>
        match row.get? idCol with
        | none => Except.error "IndexError: stop_id cell"
        | some rid => Except.ok { coord := (lng, lat), props := props, fid := rid }
    | _, _ => Except.error "InvalidOperation: bad coordinate"
  | _, _ => Except.error "IndexError: coordinate cell"

/-- One iteration of the stops loop: append the row's feature. -/
def stopsStep (header : List String) (latCol lngCol idCol : Nat)
    (fs : List StopFeature) (row : List String) : Except String (List StopFeature) :=
  match stopFeature header latCol lngCol idCol row with
  | Except.error e => Except.error e
  | Except.ok f => Except.ok (fs ++ [f])

/-- `gtfs_stops`: resolve the three required columns (a missing one raises
before any row is processed), then emit one point feature per row. -/
def gtfs_stops (header : List String) (rows : List (List String)) :
    Except String (List StopFeature) :=
  match colIndex header "stop_lat", colIndex header "stop_lon", colIndex header "stop_id" with
  | some latCol, some lngCol, some idCol =>
    foldE (stopsStep header latCol lngCol idCol) [] rows
  | _, _, _ => Except.error "ValueError: missing required stop column"

/-! ## Specification-side helper functions -/

/-- Number of trips-table rows carrying a given (route, shape) pair. -/
def tripCount (rows : List TripRow) (route shape : String) : Nat :=
  rows.countP (fun r => r.route_id = route ∧ r.shape_id = shape)

/-- The trip named by the first trips-table row of a route. -/
def firstTripOf (rows : List TripRow) (route : String) : Option String :=
  (rows.find? (fun r => r.route_id = route)).map (fun r => r.trip_id)

/-- A stop-times row is valid when both of its time cells parse. -/
def validRow (r : StRow) : Prop :=
  (time_as_timedelta r.arrival_time).isSome ∧ (time_as_timedelta r.departure_time).isSome

instance (r : StRow) : Decidable (validRow r) := by
  unfold validRow; infer_instance

/-- Window invariant: all four fields unset, or all four set with the
earliest sequence at most the latest. -/
def twInv (w : TW) : Prop :=
  w = ⟨none, none, none, none⟩ ∨
  ∃ e l d a, w = ⟨some e, some l, some d, some a⟩ ∧ e ≤ l

/-- Window evolution: once set, the earliest sequence never increases and
the latest sequence never decreases. -/
def twEvol (w w' : TW) : Prop :=
  (∀ e, w.es = some e → ∃ e', w'.es = some e' ∧ e' ≤ e) ∧
  (∀ l, w.ls = some l → ∃ l', w'.ls = some l' ∧ l ≤ l')

/-- What a trip's window means with respect to the rows already consumed:
either no valid row was seen, or all four fields are set, the bounds are
attained by valid rows of the trip, and every valid row of the trip lies
between them. -/
def twSpec (processed : List StRow) (t : String) (w : TW) : Prop :=
  (w = ⟨none, none, none, none⟩ ∧ ∀ r ∈ processed, r.trip_id = t → ¬ validRow r) ∨
  ∃ es ls d a, w = ⟨some es, some ls, some d, some a⟩ ∧
    (∃ r ∈ processed, r.trip_id = t ∧ validRow r ∧
      pyInt r.stop_sequence.toList = some es ∧
      time_as_timedelta r.departure_time = some d) ∧
    (∃ r ∈ processed, r.trip_id = t ∧ validRow r ∧
      pyInt r.stop_sequence.toList = some ls ∧
      time_as_timedelta r.arrival_time = some a) ∧
    (∀ r ∈ processed, r.trip_id = t → validRow r →
      ∃ q, pyInt r.stop_sequence.toList = some q ∧ es ≤ q ∧ q ≤ ls)

/-- The point stored for shape `sid` at sequence number `k`: the decoded
coordinates of the last matching row (last write wins). -/
def shapePt (rows : List ShRow) (sid : String) (k : Int) : Option (ℚ × ℚ) :=
  (rows.reverse.find? (fun r => r.shape_id == sid && pyInt r.pt_seq.toList == some k)).bind
    (fun r =>
      match parseDec r.pt_lng, parseDec r.pt_lat with
      | some lng, some lat => some (lng, lat)
      | _, _ => none)

/-- An enumerated header column contributes the property named `h` when it
has that name, is not excluded, and its row cell is non-empty. -/
def propHit (row : List String) (exclude : List String) (h : String)
    (p : Nat × String) : Bool :=
  p.2 == h && !(exclude.contains p.2) && ((row.get? p.1).getD "") != ""

/-- Invariant of the shapes pass after consuming `processed`: a shape is
absent exactly when no row mentioned it, and a present shape's point
dictionary has pairwise-distinct sequence keys whose lookup is the decoded
coordinate of the last matching row (`shapePt`). -/
def ShInv (processed : List ShRow) (acc : ShapesAcc) : Prop :=
  (∀ sid, dictLookup acc.shapes sid = none ↔ ∀ r ∈ processed, r.shape_id ≠ sid) ∧
  (∀ sid pts, dictLookup acc.shapes sid = some pts →
    (pts.map Prod.fst).Nodup ∧ ∀ k, dictLookup pts k = shapePt processed sid k)

/-- Invariant of the trips pass after consuming `processed`: a route is
present exactly when a row mentioned it; its candidate dictionary has
pairwise-distinct shape keys counting matching rows (`tripCount`); its
representative window is `trip_times` at the route's first trip. -/
def TRInv (trip_times : List (String × TW)) (processed : List TripRow)
    (acc : TripsAcc) : Prop :=
  (∀ route, (dictLookup acc.trips_ref route).isSome = true ↔
    route ∈ processed.map (fun r => r.route_id)) ∧
  (∀ route cands, dictLookup acc.trips_ref route = some cands →
    (cands.map Prod.fst).Nodup ∧
    ∀ shape, dictLookup cands shape =
      (if tripCount processed route shape = 0 then none
        else some (tripCount processed route shape))) ∧
  (∀ route, dictLookup acc.route_time route =
    (firstTripOf processed route).bind (fun t => dictLookup trip_times t)) ∧
  ((acc.trips_ref.map Prod.fst).Nodup)

/-! ## Association-list lemmas -/

variable {κ α : Type} [DecidableEq κ]

@[simp]
theorem dictLookup_nil (k : κ) : dictLookup ([] : List (κ × α)) k = none := rfl

theorem dictLookup_cons (k' : κ) (v : α) (d : List (κ × α)) (k : κ) :
    dictLookup ((k', v) :: d) k = if k' = k then some v else dictLookup d k := rfl

@[simp]
theorem dictLookup_insert_self (d : List (κ × α)) (k : κ) (v : α) :
    dictLookup (dictInsert d k v) k = some v := by
  induction d with
  | nil => simp [dictInsert, dictLookup]
  | cons p rest ih =>
    by_cases h : p.1 = k
    · simp [dictInsert, dictLookup, h]
    · simpa [dictInsert, dictLookup, h] using ih

theorem dictLookup_insert_ne (d : List (κ × α)) (k k' : κ) (v : α) (h : k ≠ k') :
    dictLookup (dictInsert d k v) k' = dictLookup d k' := by
  induction d with
  | nil => simp [dictInsert, dictLookup, h]
  | cons p rest ih =>
    obtain ⟨pk, pv⟩ := p
    by_cases hp : pk = k
    · simp [dictInsert, dictLookup, hp, h]
    · by_cases hk' : pk = k'
      · subst hk'
        simp [dictInsert, dictLookup, hp]
      · simp [dictInsert, dictLookup, hp, hk', ih]

theorem mem_dictInsert {d : List (κ × α)} {k : κ} {v : α} {p : κ × α}
    (h : p ∈ dictInsert d k v) : p = (k, v) ∨ p ∈ d := by
  induction d with
  | nil => simpa [dictInsert] using h
  | cons q rest ih =>
    by_cases hq : q.1 = k
    · rcases List.mem_cons.1 (by simpa [dictInsert, hq] using h) with h' | h'
      · exact Or.inl h'
      · exact Or.inr (List.mem_cons_of_mem _ h')
    · rcases List.mem_cons.1 (by simpa [dictInsert, hq] using h) with h' | h'
      · exact Or.inr (h' ▸ List.mem_cons_self _ _)
      · rcases ih h' with h'' | h''
        · exact Or.inl h''
        · exact Or.inr (List.mem_cons_of_mem _ h'')

theorem dictInsert_ne_nil (d : List (κ × α)) (k : κ) (v : α) :
    dictInsert d k v ≠ [] := by
  cases d with
  | nil => simp [dictInsert]
  | cons p rest =>
    by_cases hp : p.1 = k <;> simp [dictInsert, hp]

theorem keys_dictInsert (d : List (κ × α)) (k : κ) (v : α) :
    (dictInsert d k v).map Prod.fst = d.map Prod.fst ∨
    (dictInsert d k v).map Prod.fst = d.map Prod.fst ++ [k] := by
  induction d with
  | nil => simp [dictInsert]
  | cons p rest ih =>
    by_cases hp : p.1 = k
    · left; simp [dictInsert, hp]
    · rcases ih with h | h
      · left; simp [dictInsert, hp, h]
      · right; simp [dictInsert, hp, h]

theorem mem_keys_dictInsert {d : List (κ × α)} {k : κ} (v : α) {k' : κ}
    (h : k' ∈ (dictInsert d k v).map Prod.fst) : k' = k ∨ k' ∈ d.map Prod.fst := by
  rcases keys_dictInsert d k v with he | he
  · exact Or.inr (he ▸ h)
  · rcases List.mem_append.1 (he ▸ h) with h' | h'
    · exact Or.inr h'
    · exact Or.inl (by simpa using h')

theorem lookup_isSome_iff_mem_keys (d : List (κ × α)) (k : κ) :
    (dictLookup d k).isSome = true ↔ k ∈ d.map Prod.fst := by
  induction d with
  | nil => simp [dictLookup]
  | cons p rest ih =>
    by_cases hp : p.1 = k
    · simp [dictLookup, hp]
    · simp [dictLookup, hp, ih, Ne.symm hp]

theorem nodup_keys_dictInsert {d : List (κ × α)} (k : κ) (v : α)
    (h : (d.map Prod.fst).Nodup) : ((dictInsert d k v).map Prod.fst).Nodup := by
  induction d with
  | nil => simp [dictInsert]
  | cons p rest ih =>
    obtain ⟨pk, pv⟩ := p
    simp only [List.map_cons, List.nodup_cons] at h
    by_cases hp : pk = k
    · subst hp
      simpa [dictInsert] using h
    · have hrest := ih h.2
      simp only [dictInsert, if_neg hp, List.map_cons, List.nodup_cons]
      refine ⟨fun hc => ?_, hrest⟩
      rcases mem_keys_dictInsert v hc with h' | h'
      · exact hp h'
      · exact h.1 h'

theorem lookup_of_mem_nodup {d : List (κ × α)} {k : κ} {v : α}
    (hnd : (d.map Prod.fst).Nodup) (h : (k, v) ∈ d) : dictLookup d k = some v := by
  induction d with
  | nil => simp at h
  | cons p rest ih =>
    simp only [List.map_cons, List.nodup_cons] at hnd
    rcases List.mem_cons.1 h with h' | h'
    · subst h'; simp [dictLookup]
    · have hne : p.1 ≠ k := by
        intro he
        exact hnd.1 (he ▸ (List.mem_map.2 ⟨(k, v), h', rfl⟩))
      simp [dictLookup, hne, ih hnd.2 h']

theorem mem_of_lookup {d : List (κ × α)} {k : κ} {v : α}
    (h : dictLookup d k = some v) : (k, v) ∈ d := by
  induction d with
  | nil => simp [dictLookup] at h
  | cons p rest ih =>
    obtain ⟨pk, pv⟩ := p
    by_cases hp : pk = k
    · simp only [dictLookup, if_pos hp] at h
      cases h
      subst hp
      exact List.mem_cons_self _ _
    · simp only [dictLookup, if_neg hp] at h
      exact List.mem_cons_of_mem _ (ih h)

theorem dictLookup_perm {d d' : List (κ × α)} (hp : d.Perm d')
    (hnd : (d.map Prod.fst).Nodup) (k : κ) : dictLookup d k = dictLookup d' k := by
  have hnd' : (d'.map Prod.fst).Nodup := ((hp.map Prod.fst).nodup_iff).1 hnd
  cases h : dictLookup d k with
  | none =>
    cases h' : dictLookup d' k with
    | none => rfl
    | some v =>
      have : (k, v) ∈ d := hp.symm.subset (mem_of_lookup h')
      rw [lookup_of_mem_nodup hnd this] at h
      exact absurd h (by simp)
  | some v =>
    exact (lookup_of_mem_nodup hnd' (hp.subset (mem_of_lookup h))).symm

/-- Value-mapping commutes with lookup. -/
theorem dictLookup_mapval {β : Type} (g : α → β) (d : List (κ × α)) (k : κ) :
    dictLookup (d.map (fun p => (p.1, g p.2))) k = (dictLookup d k).map g := by
  induction d with
  | nil => simp [dictLookup]
  | cons p rest ih =>
    by_cases hp : p.1 = k <;> simp [dictLookup, hp, ih]

/-! ## `foldE` lemmas -/

theorem foldE_append {σ ρ : Type} (f : σ → ρ → Except String σ) (s : σ)
    (l₁ l₂ : List ρ) :
    foldE f s (l₁ ++ l₂) =
      match foldE f s l₁ with
      | Except.error e => Except.error e
      | Except.ok s' => foldE f s' l₂ := by
  induction l₁ generalizing s with
  | nil => simp [foldE]
  | cons r rs ih =>
    simp only [List.cons_append, foldE]
    cases f s r with
    | error e => rfl
    | ok s' => exact ih s'

theorem foldE_ok_of_append {σ ρ : Type} {f : σ → ρ → Except String σ} {s : σ}
    {l₁ l₂ : List ρ} {out : σ} (h : foldE f s (l₁ ++ l₂) = Except.ok out) :
    ∃ mid, foldE f s l₁ = Except.ok mid ∧ foldE f mid l₂ = Except.ok out := by
  rw [foldE_append] at h
  cases hm : foldE f s l₁ with
  | error e => rw [hm] at h; exact absurd h (by simp)
  | ok mid => rw [hm] at h; exact ⟨mid, rfl, h⟩

/-! ## Sorting lemmas -/

theorem perm_insertAsc (x : Int × (ℚ × ℚ)) (l : List (Int × (ℚ × ℚ))) :
    (insertAsc x l).Perm (x :: l) := by
  induction l with
  | nil => simp [insertAsc]
  | cons y ys ih =>
    by_cases h : x.1 ≤ y.1
    · simp [insertAsc, h]
    · simp only [insertAsc, if_neg h]
      exact ((ih.cons y).trans (List.Perm.swap x y ys))

theorem perm_sortByKey (l : List (Int × (ℚ × ℚ))) : (sortByKey l).Perm l := by
  induction l with
  | nil => simp [sortByKey]
  | cons x xs ih => exact (perm_insertAsc x (sortByKey xs)).trans (ih.cons x)

theorem sorted_insertAsc (x : Int × (ℚ × ℚ)) (l : List (Int × (ℚ × ℚ)))
    (h : l.Pairwise (fun p q => p.1 ≤ q.1)) :
    (insertAsc x l).Pairwise (fun p q => p.1 ≤ q.1) := by
  induction l with
  | nil => simp [insertAsc]
  | cons y ys ih =>
    rcases List.pairwise_cons.1 h with ⟨hy, hys⟩
    by_cases hle : x.1 ≤ y.1
    · simp only [insertAsc, if_pos hle]
      exact List.pairwise_cons.2 ⟨by
        intro z hz
        rcases List.mem_cons.1 hz with h' | h'
        · exact h' ▸ hle
        · exact le_trans hle (hy z h'), h⟩
    · simp only [insertAsc, if_neg hle]
      refine List.pairwise_cons.2 ⟨?_, ih hys⟩
      intro z hz
      rcases List.mem_cons.1 ((perm_insertAsc x ys).subset hz) with h' | h'
      · exact h' ▸ le_of_lt (lt_of_not_le hle)
      · exact hy z h'

theorem sorted_sortByKey (l : List (Int × (ℚ × ℚ))) :
    (sortByKey l).Pairwise (fun p q => p.1 ≤ q.1) := by
  induction l with
  | nil => simp [sortByKey]
  | cons x xs ih => exact sorted_insertAsc x (sortByKey xs) ih

theorem strict_sorted_sortByKey (l : List (Int × (ℚ × ℚ)))
    (hnd : (l.map Prod.fst).Nodup) :
    (sortByKey l).Pairwise (fun p q => p.1 < q.1) := by
  have hnd' : ((sortByKey l).map Prod.fst).Nodup :=
    (((perm_sortByKey l).map Prod.fst).nodup_iff).2 hnd
  have hne : (sortByKey l).Pairwise (fun p q => p.1 ≠ q.1) :=
    (List.pairwise_map.1 hnd')
  exact ((sorted_sortByKey l).and hne).imp (fun h => lt_of_le_of_ne h.1 h.2)

/-- Two strictly key-sorted association lists with the same lookup function
are equal. -/
theorem eq_of_strict_sorted_lookup : ∀ (l₁ l₂ : List (Int × (ℚ × ℚ))),
    l₁.Pairwise (fun p q => p.1 < q.1) → l₂.Pairwise (fun p q => p.1 < q.1) →
    (∀ k, dictLookup l₁ k = dictLookup l₂ k) → l₁ = l₂
  | [], [], _, _, _ => rfl
  | [], (k, v) :: t, _, _, hl => by
    have := hl k
    simp [dictLookup] at this
  | (k, v) :: t, [], _, _, hl => by
    have := hl k
    simp [dictLookup] at this
  | (k₁, v₁) :: t₁, (k₂, v₂) :: t₂, h₁, h₂, hl => by
    rcases List.pairwise_cons.1 h₁ with ⟨hk₁, ht₁⟩
    rcases List.pairwise_cons.1 h₂ with ⟨hk₂, ht₂⟩
    have hkeq : k₁ = k₂ := by
      by_contra hne
      rcases lt_or_gt_of_ne (show k₁ ≠ k₂ from hne) with hlt | hgt
      · -- k₁ smaller: lookup k₁ on the right must be in t₂, impossible
        have h' := hl k₁
        simp only [dictLookup, if_pos rfl, if_neg (show k₂ ≠ k₁ from ne_of_gt hlt)] at h'
        have : (k₁, v₁) ∈ t₂ := mem_of_lookup h'.symm
        exact absurd (hk₂ _ this) (by simp [hlt, not_lt.2 (le_of_lt hlt)])
      · have h' := hl k₂
        simp only [dictLookup, if_pos rfl, if_neg (show k₁ ≠ k₂ from ne_of_gt hgt)] at h'
        have : (k₂, v₂) ∈ t₁ := mem_of_lookup h'
        exact absurd (hk₁ _ this) (by simp [not_lt.2 (le_of_lt hgt)])
    subst hkeq
    have hveq : v₁ = v₂ := by
      have h' := hl k₁
      simpa [dictLookup] using h'
    subst hveq
    refine congrArg _ (eq_of_strict_sorted_lookup t₁ t₂ ht₁ ht₂ ?_)
    intro k
    by_cases hk : k = k₁
    · subst hk
      have hn₁ : dictLookup t₁ k = none := by
        cases hlk : dictLookup t₁ k with
        | none => rfl
        | some v =>
          exact absurd (hk₁ _ (mem_of_lookup hlk)) (by simp)
      have hn₂ : dictLookup t₂ k = none := by
        cases hlk : dictLookup t₂ k with
        | none => rfl
        | some v =>
          exact absurd (hk₂ _ (mem_of_lookup hlk)) (by simp)
      rw [hn₁, hn₂]
    · have h' := hl k
      simpa [dictLookup, Ne.symm hk] using h'

/-! ## Splitting lemmas and time parsing (C6) -/

theorem splitChar_no_sep (sep : Char) (l : List Char) (h : sep ∉ l) :
    splitChar sep l = [l] := by
  induction l with
  | nil => rfl
  | cons c rest ih =>
    have hc : ¬ c = sep := fun he => h (he ▸ List.mem_cons_self c rest)
    have hr : sep ∉ rest := fun hm => h (List.mem_cons_of_mem _ hm)
    simp [splitChar, hc, ih hr]

theorem splitChar_append (sep : Char) (a rest : List Char) (h : sep ∉ a) :
    splitChar sep (a ++ sep :: rest) = a :: splitChar sep rest := by
  induction a with
  | nil => simp [splitChar]
  | cons c t ih =>
    have hc : ¬ c = sep := fun he => h (he ▸ List.mem_cons_self c t)
    have ht : sep ∉ t := fun hm => h (List.mem_cons_of_mem _ hm)
    simp [splitChar, hc, ih ht]

theorem timeChars_eq_of_split (l a b c : List Char)
    (hs : splitChar ':' l = [a, b, c]) :
    timeChars l =
      match pyInt a, pyInt b, pyInt c with
      | some h, some m, some s => some (h * 3600 + m * 60 + s)
      | _, _, _ => none := by
  rw [timeChars, hs]

/-- **C6**: time parsing accepts exactly three colon-separated integer
fields `h:m:s`, yielding `h*3600 + m*60 + s` seconds (hours above 23 valid
and not wrapped); any other text yields no value; and a stop-times row with
a malformed arrival or departure text leaves every trip's window state
unchanged (except for creating an untouched all-`None` entry) while
processing continues with an `ok` result. -/
theorem C6_time_parsing :
    (∀ (a b c : List Char) (h m s : Int), ':' ∉ a → ':' ∉ b → ':' ∉ c →
      pyInt a = some h → pyInt b = some m → pyInt c = some s →
      timeChars (a ++ ':' :: (b ++ ':' :: c)) = some (h * 3600 + m * 60 + s)) ∧
    (∀ (l : List Char) (v : Int), timeChars l = some v →
      ∃ a b c h m s, splitChar ':' l = [a, b, c] ∧ pyInt a = some h ∧
        pyInt b = some m ∧ pyInt c = some s ∧ v = h * 3600 + m * 60 + s) ∧
    (∀ (tt : List (String × TW)) (r : StRow),
      time_as_timedelta r.arrival_time = none ∨
        time_as_timedelta r.departure_time = none →
      ∃ tt', tripTimesStep tt r = Except.ok tt' ∧
        ∀ t, dictLookup tt' t =
          if t = r.trip_id ∧ dictLookup tt r.trip_id = none
          then some ⟨none, none, none, none⟩ else dictLookup tt t) := by
  refine ⟨?_, ?_, ?_⟩
  · intro a b c h m s ha hb hc hpa hpb hpc
    rw [timeChars, splitChar_append ':' a _ ha, splitChar_append ':' b _ hb,
      splitChar_no_sep ':' c hc]
    simp [hpa, hpb, hpc]
  · intro l v hv
    cases hs : splitChar ':' l with
    | nil => rw [timeChars, hs] at hv; simp at hv
    | cons a t =>
      cases t with
      | nil => rw [timeChars, hs] at hv; simp at hv
      | cons b t =>
        cases t with
        | nil => rw [timeChars, hs] at hv; simp at hv
        | cons c t =>
          cases t with
          | cons d t => rw [timeChars, hs] at hv; simp at hv
          | nil =>
            rw [timeChars_eq_of_split l a b c hs] at hv
            rcases hpa : pyInt a with _ | h
            · rw [hpa] at hv; simp at hv
            rcases hpb : pyInt b with _ | m
            · rw [hpb] at hv; simp at hv
            rcases hpc : pyInt c with _ | s
            · rw [hpc] at hv; simp at hv
            rw [hpa, hpb, hpc] at hv
            simp only [Option.some.injEq] at hv
            exact ⟨a, b, c, h, m, s, rfl, hpa, hpb, hpc, hv.symm⟩
  · intro tt r hbad
    have hstep : tripTimesStep tt r = Except.ok
        (match dictLookup tt r.trip_id with
          | none => dictInsert tt r.trip_id ⟨none, none, none, none⟩
          | some _ => tt) := by
      rcases ha : time_as_timedelta r.arrival_time with _ | x <;>
        rcases hd : time_as_timedelta r.departure_time with _ | y <;>
          simp [tripTimesStep, ha, hd] <;> simp_all
    rcases hlk : dictLookup tt r.trip_id with _ | w
    · rw [hlk] at hstep
      refine ⟨_, hstep, ?_⟩
      intro t
      by_cases ht : t = r.trip_id
      · subst ht
        simp [hlk, dictLookup_insert_self]
      · simp [ht, hlk, dictLookup_insert_ne tt r.trip_id t _ (fun he => ht he.symm)]
    · rw [hlk] at hstep
      refine ⟨_, hstep, ?_⟩
      intro t
      simp [hlk]

/-- Concrete instance of C6: `25:0:0` parses to 90000 seconds (no wrap past
midnight), and a malformed-arrival row leaves the empty state with only a
fresh all-`None` entry. -/
theorem C6_time_parsing_witness :
    timeChars ("25".toList ++ ':' :: ("0".toList ++ ':' :: "0".toList)) =
      some (25 * 3600 + 0 * 60 + 0) ∧
    ∃ tt', tripTimesStep [] ⟨"T1", "bad", "1:2:3", "5"⟩ = Except.ok tt' ∧
      ∀ t, dictLookup tt' t =
        if t = "T1" ∧ dictLookup ([] : List (String × TW)) "T1" = none
        then some ⟨none, none, none, none⟩
        else dictLookup ([] : List (String × TW)) t :=
  ⟨C6_time_parsing.1 _ _ _ 25 0 0 (by decide) (by decide) (by decide)
      (by decide) (by decide) (by decide),
    C6_time_parsing.2.2 [] ⟨"T1", "bad", "1:2:3", "5"⟩ (Or.inl (by decide))⟩

/-! ## Window invariant and evolution (C10) -/

theorem twEvol_refl (w : TW) : twEvol w w :=
  ⟨fun e he => ⟨e, he, le_refl e⟩, fun l hl => ⟨l, hl, le_refl l⟩⟩

theorem twEvol_trans {w₁ w₂ w₃ : TW} (h₁ : twEvol w₁ w₂) (h₂ : twEvol w₂ w₃) :
    twEvol w₁ w₃ := by
  refine ⟨fun e he => ?_, fun l hl => ?_⟩
  · obtain ⟨e', he', hle⟩ := h₁.1 e he
    obtain ⟨e'', he'', hle'⟩ := h₂.1 e' he'
    exact ⟨e'', he'', le_trans hle' hle⟩
  · obtain ⟨l', hl', hle⟩ := h₁.2 l hl
    obtain ⟨l'', hl'', hle'⟩ := h₂.2 l' hl'
    exact ⟨l'', hl'', le_trans hle hle'⟩

theorem twUpdate_nn (q d a : Int) (dp ar : Option Int) :
    twUpdate ⟨none, none, dp, ar⟩ q d a = ⟨some q, some q, some d, some a⟩ := rfl

theorem twUpdate_ns (l₀ q d a : Int) (dp ar : Option Int) :
    twUpdate ⟨none, some l₀, dp, ar⟩ q d a =
      if l₀ < q then ⟨some q, some q, some d, some a⟩
      else ⟨some q, some l₀, some d, ar⟩ := by
  by_cases h : l₀ < q <;> simp [twUpdate, h]

theorem twUpdate_sn (e₀ q d a : Int) (dp ar : Option Int) :
    twUpdate ⟨some e₀, none, dp, ar⟩ q d a =
      if e₀ > q then ⟨some q, some q, some d, some a⟩
      else ⟨some e₀, some q, dp, some a⟩ := by
  by_cases h : e₀ > q <;> simp [twUpdate, h]

theorem twUpdate_ss (e₀ l₀ q d a : Int) (dp ar : Option Int) :
    twUpdate ⟨some e₀, some l₀, dp, ar⟩ q d a =
      ⟨if e₀ > q then some q else some e₀,
       if l₀ < q then some q else some l₀,
       if e₀ > q then some d else dp,
       if l₀ < q then some a else ar⟩ := by
  by_cases h₁ : e₀ > q <;> by_cases h₂ : l₀ < q <;> simp [twUpdate, h₁, h₂]

theorem twUpdate_spec (w : TW) (q d a : Int) :
    twEvol w (twUpdate w q d a) ∧ (twInv w → twInv (twUpdate w q d a)) := by
  obtain ⟨es, ls, dp, ar⟩ := w
  cases es with
  | none =>
    cases ls with
    | none =>
      rw [twUpdate_nn]
      refine ⟨⟨fun e he => by simp at he, fun l hl => by simp at hl⟩, fun _ => ?_⟩
      exact Or.inr ⟨q, q, d, a, rfl, le_refl q⟩
    | some l₀ =>
      rw [twUpdate_ns]
      constructor
      · refine ⟨fun e he => by simp at he, fun l hl => ?_⟩
        simp only [] at hl
        cases hl
        by_cases h : l₀ < q <;> simp [h] <;> omega
      · rintro (hz | ⟨e, l, d₀, a₀, heq, _⟩)
        · simp at hz
        · simp at heq
  | some e₀ =>
    cases ls with
    | none =>
      rw [twUpdate_sn]
      constructor
      · refine ⟨fun e he => ?_, fun l hl => by simp at hl⟩
        simp only [] at he
        cases he
        by_cases h : e₀ > q <;> simp [h] <;> omega
      · rintro (hz | ⟨e, l, d₀, a₀, heq, _⟩)
        · simp at hz
        · simp at heq
    | some l₀ =>
      rw [twUpdate_ss]
      constructor
      · refine ⟨fun e he => ?_, fun l hl => ?_⟩
        · simp only [] at he
          cases he
          by_cases h : e₀ > q <;> simp [h] <;> omega
        · simp only [] at hl
          cases hl
          by_cases h : l₀ < q <;> simp [h] <;> omega
      · rintro (hz | ⟨e, l, d₀, a₀, heq, hle⟩)
        · simp at hz
        · simp only [TW.mk.injEq, Option.some.injEq] at heq
          obtain ⟨he, hl, hd, ha⟩ := heq
          have hle' : e₀ ≤ l₀ := by rw [he, hl]; exact hle
          by_cases h₁ : e₀ > q <;> by_cases h₂ : l₀ < q
          · exact Or.inr ⟨q, q, d, a, by simp [h₁, h₂], le_refl q⟩
          · exact Or.inr ⟨q, l₀, d, a₀, by simp [h₁, h₂, ha], by omega⟩
          · exact Or.inr ⟨e₀, q, d₀, a, by simp [h₁, h₂, hd], by omega⟩
          · exact Or.inr ⟨e₀, l₀, d₀, a₀, by simp [h₁, h₂, hd, ha], hle'⟩

theorem tripTimesStep_evol {tt tt' : List (String × TW)} {r : StRow}
    (h : tripTimesStep tt r = Except.ok tt') (t : String) :
    (∀ w, dictLookup tt t = some w →
      ∃ w', dictLookup tt' t = some w' ∧ twEvol w w' ∧ (twInv w → twInv w')) ∧
    (dictLookup tt t = none →
      dictLookup tt' t = none ∨
        ∃ w', dictLookup tt' t = some w' ∧ twInv w') := by
  by_cases ht : t = r.trip_id
  case neg =>
    -- the step only touches the entry of `r.trip_id`
    have hside : dictLookup tt' t = dictLookup tt t := by
      rw [tripTimesStep] at h
      rcases hlk : dictLookup tt r.trip_id with _ | w₀ <;> rw [hlk] at h
      · rcases ha : time_as_timedelta r.arrival_time with _ | x <;> rw [ha] at h
        · cases h
          exact dictLookup_insert_ne tt r.trip_id t _ (fun he => ht he.symm)
        · rcases hd : time_as_timedelta r.departure_time with _ | y <;> rw [hd] at h
          · cases h
            exact dictLookup_insert_ne tt r.trip_id t _ (fun he => ht he.symm)
          · rcases hq : pyInt r.stop_sequence.toList with _ | q <;> rw [hq] at h
            · exact absurd h (by simp)
            · rw [dictLookup_insert_self] at h
              cases h
              rw [dictLookup_insert_ne _ r.trip_id t _ (fun he => ht he.symm),
                dictLookup_insert_ne tt r.trip_id t _ (fun he => ht he.symm)]
      · rcases ha : time_as_timedelta r.arrival_time with _ | x <;> rw [ha] at h
        · cases h; rfl
        · rcases hd : time_as_timedelta r.departure_time with _ | y <;> rw [hd] at h
          · cases h; rfl
          · rcases hq : pyInt r.stop_sequence.toList with _ | q <;> rw [hq] at h
            · exact absurd h (by simp)
            · rw [hlk] at h
              cases h
              exact dictLookup_insert_ne tt r.trip_id t _ (fun he => ht he.symm)
    constructor
    · intro w hw
      exact ⟨w, by rw [hside]; exact hw, twEvol_refl w, id⟩
    · intro hn
      exact Or.inl (hside.trans hn)
  case pos =>
    subst ht
    rw [tripTimesStep] at h
    rcases hlk : dictLookup tt r.trip_id with _ | w₀ <;> rw [hlk] at h
    · -- fresh entry
      constructor
      · intro w hw
        exact Option.noConfusion hw
      intro hn2
      rcases ha : time_as_timedelta r.arrival_time with _ | x <;> rw [ha] at h
      · cases h
        exact Or.inr ⟨_, dictLookup_insert_self tt r.trip_id _, Or.inl rfl⟩
      · rcases hd : time_as_timedelta r.departure_time with _ | y <;> rw [hd] at h
        · cases h
          exact Or.inr ⟨_, dictLookup_insert_self tt r.trip_id _, Or.inl rfl⟩
        · rcases hq : pyInt r.stop_sequence.toList with _ | q <;> rw [hq] at h
          · exact absurd h (by simp)
          · rw [dictLookup_insert_self] at h
            cases h
            refine Or.inr ⟨_, dictLookup_insert_self _ r.trip_id _, ?_⟩
            exact (twUpdate_spec ⟨none, none, none, none⟩ q y x).2 (Or.inl rfl)
    · -- existing entry
      constructor
      case right =>
        intro hn
        exact Option.noConfusion hn
      intro w hw
      obtain rfl := (Option.some.inj hw).symm
      rcases ha : time_as_timedelta r.arrival_time with _ | x <;> rw [ha] at h
      · cases h
        exact ⟨w, hlk, twEvol_refl w, id⟩
      · rcases hd : time_as_timedelta r.departure_time with _ | y <;> rw [hd] at h
        · cases h
          exact ⟨w, hlk, twEvol_refl w, id⟩
        · rcases hq : pyInt r.stop_sequence.toList with _ | q <;> rw [hq] at h
          · exact absurd h (by simp)
          · rw [hlk] at h
            cases h
            exact ⟨_, dictLookup_insert_self tt r.trip_id _,
              (twUpdate_spec w q y x).1, (twUpdate_spec w q y x).2⟩

theorem gtfsTripTimes_evol :
    ∀ (rows : List StRow) (tt tt' : List (String × TW)),
    foldE tripTimesStep tt rows = Except.ok tt' → ∀ t,
    (∀ w, dictLookup tt t = some w →
      ∃ w', dictLookup tt' t = some w' ∧ twEvol w w' ∧ (twInv w → twInv w')) ∧
    (dictLookup tt t = none →
      dictLookup tt' t = none ∨
        ∃ w', dictLookup tt' t = some w' ∧ twInv w')
  | [], tt, tt', h, t => by
    cases h
    exact ⟨fun w hw => ⟨w, hw, twEvol_refl w, id⟩, fun hn => Or.inl hn⟩
  | r :: rs, tt, tt', h, t => by
    rw [foldE] at h
    rcases hstep : tripTimesStep tt r with e | tt₁ <;> rw [hstep] at h
    · exact absurd h (by simp)
    · have hs := tripTimesStep_evol hstep t
      have hrest := gtfsTripTimes_evol rs tt₁ tt' h t
      constructor
      · intro w hw
        obtain ⟨w₁, hw₁, hev₁, hinv₁⟩ := hs.1 w hw
        obtain ⟨w', hw', hev', hinv'⟩ := hrest.1 w₁ hw₁
        exact ⟨w', hw', twEvol_trans hev₁ hev', fun hi => hinv' (hinv₁ hi)⟩
      · intro hn
        rcases hs.2 hn with hn₁ | ⟨w₁, hw₁, hinv₁⟩
        · exact hrest.2 hn₁
        · obtain ⟨w', hw', _, hinv'⟩ := hrest.1 w₁ hw₁
          exact Or.inr ⟨w', hw', hinv' hinv₁⟩

/-- **C10**: throughout stop-times aggregation, every per-trip window entry
is either all-unset or all-set with earliest ≤ latest (`twInv`), and from
any prefix of the input to the full input the earliest sequence never
increases and the latest never decreases (`twEvol`). -/
theorem C10_window_invariant (l₁ l₂ : List StRow) (tt₁ tt : List (String × TW))
    (h₁ : gtfsTripTimes l₁ = Except.ok tt₁)
    (h : gtfsTripTimes (l₁ ++ l₂) = Except.ok tt) :
    (∀ t w, dictLookup tt t = some w → twInv w) ∧
    (∀ t w₁, dictLookup tt₁ t = some w₁ →
      ∃ w, dictLookup tt t = some w ∧ twEvol w₁ w) := by
  constructor
  · intro t w hw
    rcases (gtfsTripTimes_evol (l₁ ++ l₂) [] tt h t).2 rfl with hn | ⟨w', hw', hinv⟩
    · rw [hw] at hn; cases hn
    · rw [hw] at hw'
      cases hw'
      exact hinv
  · intro t w₁ hw₁
    obtain ⟨mid, hmid, hrest⟩ := foldE_ok_of_append (f := tripTimesStep) h
    rw [gtfsTripTimes] at h₁
    rw [h₁] at hmid
    cases hmid
    obtain ⟨w, hw, hev, _⟩ := (gtfsTripTimes_evol l₂ tt₁ tt hrest t).1 w₁ hw₁
    exact ⟨w, hw, hev⟩

/-- Concrete instance of C10: after one row the window of `T1` is
`(5, 5, 1800, 3600)`; after a second row with a smaller sequence the window
evolves to `(3, 5, 3600, 3600)`, satisfying the invariant. -/
theorem C10_window_invariant_witness :
    twInv ⟨some 3, some 5, some 3600, some 3600⟩ ∧
    ∃ w, dictLookup [("T1", (⟨some 3, some 5, some 3600, some 3600⟩ : TW))] "T1" = some w ∧
      twEvol ⟨some 5, some 5, some 1800, some 3600⟩ w := by
  have h := C10_window_invariant [⟨"T1", "1:0:0", "0:30:0", "5"⟩]
    [⟨"T1", "1:0:0", "1:0:0", "3"⟩]
    [("T1", ⟨some 5, some 5, some 1800, some 3600⟩)]
    [("T1", ⟨some 3, some 5, some 3600, some 3600⟩)] rfl rfl
  exact ⟨h.1 "T1" _ rfl, h.2 "T1" _ rfl⟩

/-! ## Shape assembly lemmas (C4) -/

theorem find?_eq_head?_filter {β : Type} (p : β → Bool) (l : List β) :
    l.find? p = (l.filter p).head? := by
  induction l with
  | nil => rfl
  | cons x xs ih =>
    by_cases h : p x
    · rw [List.find?_cons_of_pos _ h, List.filter_cons_of_pos h]
      rfl
    · rw [List.find?_cons_of_neg _ (by simpa using h),
        List.filter_cons_of_neg (by simpa using h), ih]

theorem find?_perm_of_subsingleton {β : Type} {p : β → Bool} {l₁ l₂ : List β}
    (hp : l₁.Perm l₂) (hlen : (l₁.filter p).length ≤ 1) :
    l₁.find? p = l₂.find? p := by
  rw [find?_eq_head?_filter, find?_eq_head?_filter]
  have hf : (l₁.filter p).Perm (l₂.filter p) := hp.filter p
  rcases hfl : l₁.filter p with _ | ⟨x, t⟩
  · rw [hfl] at hf
    rw [hf.symm.eq_nil]
  · rw [hfl] at hf hlen
    cases t with
    | nil => rw [← hf.singleton_eq]
    | cons y t' => simp at hlen

theorem shapePt_append (processed : List ShRow) (r : ShRow) (sid : String) (k : Int) :
    shapePt (processed ++ [r]) sid k =
      if r.shape_id = sid ∧ pyInt r.pt_seq.toList = some k then
        (match parseDec r.pt_lng, parseDec r.pt_lat with
          | some lng, some lat => some (lng, lat)
          | _, _ => none)
      else shapePt processed sid k := by
  rw [shapePt, shapePt, List.reverse_append]
  simp only [List.reverse_singleton, List.singleton_append]
  by_cases h : r.shape_id = sid ∧ pyInt r.pt_seq.toList = some k
  · rw [if_pos h, List.find?_cons_of_pos _
      (by simp [h.1, show pyInt r.pt_seq.data = some k from h.2])]
    rfl
  · have hpred : (r.shape_id == sid && pyInt r.pt_seq.toList == some k) = false := by
      rw [Bool.eq_false_iff]
      intro hc
      simp only [Bool.and_eq_true, beq_iff_eq] at hc
      exact h ⟨hc.1, hc.2⟩
    rw [if_neg h, List.find?_cons, hpred]

theorem shapePt_eq_none (processed : List ShRow) (sid : String) (k : Int)
    (h : ∀ x ∈ processed, x.shape_id ≠ sid) : shapePt processed sid k = none := by
  rw [shapePt, List.find?_eq_none.2 ?_]
  · rfl
  · intro x hx
    simp only [Bool.and_eq_true, beq_iff_eq, not_and]
    intro h1
    exact absurd h1 (h x (List.mem_reverse.1 hx))

theorem shapesStep_shapes {hasDist : Bool} {acc acc' : ShapesAcc} {r : ShRow}
    (hstep : shapesStep hasDist acc r = Except.ok acc') :
    ∃ q lng lat, pyInt r.pt_seq.toList = some q ∧ parseDec r.pt_lng = some lng ∧
      parseDec r.pt_lat = some lat ∧
      acc'.shapes = dictInsert acc.shapes r.shape_id
        (dictInsert
          (match dictLookup acc.shapes r.shape_id with
            | none => []
            | some l => l) q (lng, lat)) := by
  rw [shapesStep] at hstep
  split at hstep
  case _ q lng lat hq hlng hlat =>
    split at hstep
    · exact absurd hstep (by simp)
    · cases hstep
      exact ⟨q, lng, lat, hq, hlng, hlat, rfl⟩
  case _ =>
    exact absurd hstep (by simp)

theorem shapesStep_inv {hasDist : Bool} {acc acc' : ShapesAcc} {r : ShRow}
    {processed : List ShRow} (hstep : shapesStep hasDist acc r = Except.ok acc')
    (hinv : ShInv processed acc) : ShInv (processed ++ [r]) acc' := by
  obtain ⟨q, lng, lat, hq, hlng, hlat, hsh⟩ := shapesStep_shapes hstep
  obtain ⟨habs, hpts⟩ := hinv
  constructor
  · intro sid
    by_cases hs : r.shape_id = sid
    · subst hs
      rw [hsh, dictLookup_insert_self]
      refine iff_of_false (by simp) (fun hall => ?_)
      exact hall r (List.mem_append_right _ (List.mem_singleton.2 rfl)) rfl
    · rw [hsh, dictLookup_insert_ne _ _ _ _ hs, habs sid]
      constructor
      · intro hp x hx
        rcases List.mem_append.1 hx with h' | h'
        · exact hp x h'
        · rw [List.mem_singleton.1 h']
          exact hs
      · intro hp x hx
        exact hp x (List.mem_append_left _ hx)
  · intro sid pts hpt
    by_cases hs : r.shape_id = sid
    · subst hs
      rw [hsh, dictLookup_insert_self] at hpt
      rcases hlk : dictLookup acc.shapes r.shape_id with _ | pts1 <;> rw [hlk] at hpt
      · -- the shape was fresh: its dictionary is the single new point
        cases hpt
        constructor
        · simp [dictInsert]
        · intro k
          rw [shapePt_append]
          by_cases hk : k = q
          · subst hk
            rw [if_pos ⟨rfl, hq⟩, hlng, hlat]
            simp [dictInsert, dictLookup]
          · rw [if_neg (fun hc => hk ((Option.some.inj (hq.symm.trans hc.2))).symm)]
            rw [shapePt_eq_none processed r.shape_id k ((habs r.shape_id).1 hlk)]
            simp [dictInsert, dictLookup, Ne.symm hk]
      · cases hpt
        obtain ⟨hnd1, hlook1⟩ := hpts r.shape_id pts1 hlk
        constructor
        · exact nodup_keys_dictInsert q (lng, lat) hnd1
        · intro k
          rw [shapePt_append]
          by_cases hk : k = q
          · subst hk
            rw [if_pos ⟨rfl, hq⟩, hlng, hlat, dictLookup_insert_self]
          · rw [if_neg (fun hc => hk ((Option.some.inj (hq.symm.trans hc.2))).symm)]
            rw [dictLookup_insert_ne _ _ _ _ (fun hc => hk hc.symm), hlook1 k]
    · rw [hsh, dictLookup_insert_ne _ _ _ _ hs] at hpt
      obtain ⟨hnd1, hlook1⟩ := hpts sid pts hpt
      refine ⟨hnd1, fun k => ?_⟩
      rw [hlook1 k, shapePt_append, if_neg (fun hc => hs hc.1)]

theorem buildShapes_fold (hasDist : Bool) :
    ∀ (rows processed : List ShRow) (acc acc' : ShapesAcc),
    foldE (shapesStep hasDist) acc rows = Except.ok acc' →
    ShInv processed acc → ShInv (processed ++ rows) acc'
  | [], processed, acc, acc', h, hinv => by
    cases h
    simpa using hinv
  | r :: rs, processed, acc, acc', h, hinv => by
    rw [foldE] at h
    rcases hstep : shapesStep hasDist acc r with e | acc₁ <;> rw [hstep] at h
    · exact absurd h (by simp)
    · have h1 := shapesStep_inv hstep hinv
      have := buildShapes_fold hasDist rs (processed ++ [r]) acc₁ acc' h h1
      simpa [List.append_assoc] using this

theorem buildShapes_spec {hasDist : Bool} {rows : List ShRow} {acc : ShapesAcc}
    (h : buildShapes hasDist rows = Except.ok acc) : ShInv rows acc := by
  have h0 : ShInv [] ⟨[], []⟩ :=
    ⟨fun sid => by simp [dictLookup], fun sid pts hpt => by simp [dictLookup] at hpt⟩
  simpa using buildShapes_fold hasDist rows [] ⟨[], []⟩ acc h h0

theorem filter_length_le_one_of_nodup_map {β γ : Type} {l : List β} {g : β → γ}
    {c : γ} (hnd : (l.map g).Nodup) {p : β → Bool}
    (hg : ∀ x, p x = true → g x = c) : (l.filter p).length ≤ 1 := by
  induction l with
  | nil => simp
  | cons x t ih =>
    simp only [List.map_cons, List.nodup_cons] at hnd
    by_cases hx : p x
    · rw [List.filter_cons_of_pos hx]
      have ht : t.filter p = [] := by
        rw [List.eq_nil_iff_forall_not_mem]
        intro y hy
        rcases List.mem_filter.1 hy with ⟨hyt, hyp⟩
        exact hnd.1 (by rw [hg x hx, ← hg y hyp]; exact List.mem_map.2 ⟨y, hyt, rfl⟩)
      rw [ht]
      simp
    · rw [List.filter_cons_of_neg (by simpa using hx)]
      exact ih hnd.2

/-- **C4 counterexample**: with two rows of shape `S` sharing sequence
number 1 but carrying different coordinates, swapping the two input rows
changes the assembled polyline (last write wins), so the emitted sequence
is not invariant under permutation of the shapes rows. -/
theorem C4_counterexample :
    ∃ a₁ a₂ : ShapesAcc,
      buildShapes false [⟨"S", "0", "0", "1", ""⟩, ⟨"S", "1", "1", "1", ""⟩] =
        Except.ok a₁ ∧
      buildShapes false [⟨"S", "1", "1", "1", ""⟩, ⟨"S", "0", "0", "1", ""⟩] =
        Except.ok a₂ ∧
      ([(⟨"S", "0", "0", "1", ""⟩ : ShRow), ⟨"S", "1", "1", "1", ""⟩]).Perm
        [⟨"S", "1", "1", "1", ""⟩, ⟨"S", "0", "0", "1", ""⟩] ∧
      dictLookup (assembleLines a₁.shapes) "S" ≠
        dictLookup (assembleLines a₂.shapes) "S" :=
  ⟨_, _, rfl, rfl, by decide, by decide⟩

/-- **C4 (amended)**: for every successful shapes pass — duplicate sequence
numbers included — every assembled per-shape point sequence is ordered by
strictly ascending sequence number; and provided no two rows of the same
shape carry the same sequence number, the assembled polyline of every shape
is invariant under permutation of the shapes-table rows. -/
theorem C4_sorted_perm_invariant (hasDist : Bool) (rows₁ : List ShRow)
    (acc₁ : ShapesAcc) (h₁ : buildShapes hasDist rows₁ = Except.ok acc₁) :
    (∀ sid pts, dictLookup acc₁.shapes sid = some pts →
      (sortByKey pts).Pairwise (fun p q => p.1 < q.1)) ∧
    (∀ rows₂ acc₂, buildShapes hasDist rows₂ = Except.ok acc₂ →
      rows₁.Perm rows₂ →
      (rows₁.map (fun r => (r.shape_id, pyInt r.pt_seq.toList))).Nodup →
      ∀ sid, dictLookup (assembleLines acc₁.shapes) sid =
        dictLookup (assembleLines acc₂.shapes) sid) := by
  obtain ⟨habs₁, hpts₁⟩ := buildShapes_spec h₁
  constructor
  · intro sid pts hpt
    exact strict_sorted_sortByKey pts (hpts₁ sid pts hpt).1
  · intro rows₂ acc₂ h₂ hperm hnd sid
    obtain ⟨habs₂, hpts₂⟩ := buildShapes_spec h₂
    rw [assembleLines, assembleLines, dictLookup_mapval, dictLookup_mapval]
    have hpt_eq : ∀ k, shapePt rows₁ sid k = shapePt rows₂ sid k := by
      intro k
      rw [shapePt, shapePt]
      have hrev : (rows₁.reverse).Perm rows₂.reverse :=
        (rows₁.reverse_perm.trans hperm).trans rows₂.reverse_perm.symm
      have hrevnd : ((rows₁.reverse).map
          (fun r => (r.shape_id, pyInt r.pt_seq.toList))).Nodup :=
        ((rows₁.reverse_perm.map _).nodup_iff).2 hnd
      rw [find?_perm_of_subsingleton hrev
        (filter_length_le_one_of_nodup_map hrevnd (c := (sid, some k)) ?_)]
      intro x hx
      simp only [Bool.and_eq_true, beq_iff_eq] at hx
      simp [hx.1, show pyInt x.pt_seq.data = some k from hx.2]
    rcases hlk₁ : dictLookup acc₁.shapes sid with _ | pts₁
    · rcases hlk₂ : dictLookup acc₂.shapes sid with _ | pts₂
      · rfl
      · have hn₁ := (habs₁ sid).1 hlk₁
        have hn₂ : ∀ r ∈ rows₂, r.shape_id ≠ sid :=
          fun r hr => hn₁ r (hperm.symm.subset hr)
        rw [(habs₂ sid).2 hn₂] at hlk₂
        cases hlk₂
    · rcases hlk₂ : dictLookup acc₂.shapes sid with _ | pts₂
      · have hn₂ := (habs₂ sid).1 hlk₂
        have hn₁ : ∀ r ∈ rows₁, r.shape_id ≠ sid :=
          fun r hr => hn₂ r (hperm.subset hr)
        rw [(habs₁ sid).2 hn₁] at hlk₁
        cases hlk₁
      · obtain ⟨hnd₁, hlook₁⟩ := hpts₁ sid pts₁ hlk₁
        obtain ⟨hnd₂, hlook₂⟩ := hpts₂ sid pts₂ hlk₂
        have hsorted : sortByKey pts₁ = sortByKey pts₂ := by
          apply eq_of_strict_sorted_lookup _ _
            (strict_sorted_sortByKey pts₁ hnd₁) (strict_sorted_sortByKey pts₂ hnd₂)
          intro k
          rw [dictLookup_perm (perm_sortByKey pts₁)
              ((((perm_sortByKey pts₁).map Prod.fst).nodup_iff).2 hnd₁) k,
            dictLookup_perm (perm_sortByKey pts₂)
              ((((perm_sortByKey pts₂).map Prod.fst).nodup_iff).2 hnd₂) k,
            hlook₁ k, hlook₂ k]
          exact hpt_eq k
        show some (assembleLine pts₁) = some (assembleLine pts₂)
        rw [assembleLine, assembleLine, hsorted]

/-- Concrete instance of the amended C4: a shapes table whose shape `S`
carries sequence number 2 twice still assembles in strictly ascending
sequence order, and two duplicate-free rows of shape `SH1` assemble, in
either input order, to the polyline `[(0,0), (1,1)]`. -/
theorem C4_sorted_perm_invariant_witness :
    (∃ pts, dictLookup
        ([("S", [((2 : Int), ((5 : ℚ), (5 : ℚ))), ((1 : Int), ((1 : ℚ), (1 : ℚ)))])] :
          List (String × List (Int × (ℚ × ℚ)))) "S" = some pts ∧
      (sortByKey pts).Pairwise (fun p q => p.1 < q.1)) ∧
    dictLookup (assembleLines
        [("SH1", [((2 : Int), ((1 : ℚ), (1 : ℚ))), ((1 : Int), ((0 : ℚ), (0 : ℚ)))])]) "SH1" =
      dictLookup (assembleLines
        [("SH1", [((1 : Int), ((0 : ℚ), (0 : ℚ))), ((2 : Int), ((1 : ℚ), (1 : ℚ)))])]) "SH1" := by
  constructor
  · have hd := C4_sorted_perm_invariant false
      [⟨"S", "0", "0", "2", ""⟩, ⟨"S", "1", "1", "1", ""⟩, ⟨"S", "5", "5", "2", ""⟩]
      ⟨[("S", [(2, (5, 5)), (1, (1, 1))])], []⟩ rfl
    exact ⟨_, rfl, hd.1 "S" _ rfl⟩
  · have h := C4_sorted_perm_invariant false
      [⟨"SH1", "1", "1", "2", ""⟩, ⟨"SH1", "0", "0", "1", ""⟩]
      ⟨[("SH1", [(2, (1, 1)), (1, (0, 0))])], []⟩ rfl
    exact h.2 [⟨"SH1", "0", "0", "1", ""⟩, ⟨"SH1", "1", "1", "2", ""⟩]
      ⟨[("SH1", [(1, (0, 0)), (2, (1, 1))])], []⟩ rfl (by decide) (by decide) "SH1"

/-! ## Trips pass lemmas (C3, C5, C7, C9) -/

theorem tripCount_append_single (l : List TripRow) (r : TripRow) (route shape : String) :
    tripCount (l ++ [r]) route shape =
      tripCount l route shape +
        (if r.route_id = route ∧ r.shape_id = shape then 1 else 0) := by
  rw [tripCount, tripCount, List.countP_append]
  congr 1
  rw [List.countP_cons, List.countP_nil]
  by_cases h : r.route_id = route ∧ r.shape_id = shape <;> simp [h]

theorem tripCount_eq_zero (l : List TripRow) (route shape : String)
    (h : route ∉ l.map (fun r => r.route_id)) : tripCount l route shape = 0 := by
  rw [tripCount, List.countP_eq_zero]
  intro x hx
  simp only [decide_eq_true_eq, not_and]
  intro hc
  exact absurd (List.mem_map.2 ⟨x, hx, hc⟩) h

theorem firstTripOf_eq_none (l : List TripRow) (route : String)
    (h : route ∉ l.map (fun r => r.route_id)) : firstTripOf l route = none := by
  rw [firstTripOf, List.find?_eq_none.2 ?_]
  · rfl
  · intro x hx
    simp only [decide_eq_true_eq]
    intro hc
    exact absurd (List.mem_map.2 ⟨x, hx, hc⟩) h

theorem firstTripOf_append_single (l : List TripRow) (r : TripRow) (route : String) :
    firstTripOf (l ++ [r]) route =
      match firstTripOf l route with
      | some t => some t
      | none => if r.route_id = route then some r.trip_id else none := by
  rw [firstTripOf, firstTripOf, List.find?_append]
  rcases hf : l.find? (fun x => x.route_id = route) with _ | x <;> rw [hf]
  · rw [List.find?_singleton]
    by_cases h : r.route_id = route <;> simp [h]
  · rfl

theorem mem_map_route_of_count_pos {l : List TripRow} {route shape : String}
    (h : tripCount l route shape ≠ 0) : route ∈ l.map (fun r => r.route_id) := by
  by_contra hc
  exact h (tripCount_eq_zero l route shape hc)

theorem tripsRefStep_inv {tt : List (String × TW)} {acc acc' : TripsAcc} {r : TripRow}
    {processed : List TripRow}
    (hstep : tripsRefStep tt acc r = Except.ok acc')
    (hinv : TRInv tt processed acc) : TRInv tt (processed ++ [r]) acc' := by
  obtain ⟨hkeys, hcount, hrt, hnd⟩ := hinv
  rw [tripsRefStep] at hstep
  rcases hlk : dictLookup acc.trips_ref r.route_id with _ | cands <;> rw [hlk] at hstep
  · -- first row of this route
    rcases htt : dictLookup tt r.trip_id with _ | w <;> rw [htt] at hstep
    · exact absurd hstep (by simp)
    obtain rfl := Except.ok.inj hstep
    have hnotmem : r.route_id ∉ processed.map (fun x => x.route_id) := by
      intro hm
      have hsome := (hkeys r.route_id).2 hm
      rw [hlk] at hsome
      simp at hsome
    refine ⟨?_, ?_, ?_, ?_⟩
    · intro route
      by_cases hr : route = r.route_id
      · subst hr
        simp only [dictLookup_insert_self, List.map_append, List.map_cons]
        simp
      · simp only [dictLookup_insert_ne _ _ _ _ (fun he => hr he.symm)]
        rw [hkeys route]
        simp only [List.map_append, List.map_cons, List.map_nil, List.mem_append]
        constructor
        · intro hm
          exact Or.inl hm
        · intro hm
          rcases hm with hm | hm
          · exact hm
          · simp only [List.mem_singleton] at hm
            exact absurd hm hr
    · intro route cands' hc
      by_cases hr : route = r.route_id
      · subst hr
        simp only [dictLookup_insert_self, Option.some.injEq] at hc
        subst hc
        refine ⟨by simp, fun shape => ?_⟩
        have hz : tripCount processed r.route_id shape = 0 :=
          tripCount_eq_zero _ _ _ hnotmem
        rw [tripCount_append_single, hz]
        by_cases hs : r.shape_id = shape
        · subst hs
          simp [dictLookup]
        · have hpair : ¬(r.route_id = r.route_id ∧ r.shape_id = shape) :=
            fun hc2 => hs hc2.2
          rw [if_neg hpair]
          simp [dictLookup, hs]
      · simp only [dictLookup_insert_ne _ _ _ _ (fun he => hr he.symm)] at hc
        obtain ⟨hnd', hcnt'⟩ := hcount route cands' hc
        refine ⟨hnd', fun shape => ?_⟩
        have hpair : ¬(r.route_id = route ∧ r.shape_id = shape) :=
          fun hc2 => hr hc2.1.symm
        rw [hcnt' shape, tripCount_append_single, if_neg hpair]
        simp
    · intro route
      by_cases hr : route = r.route_id
      · subst hr
        simp only [dictLookup_insert_self]
        rw [firstTripOf_append_single, firstTripOf_eq_none _ _ hnotmem,
          if_pos rfl]
        simp [htt]
      · simp only [dictLookup_insert_ne _ _ _ _ (fun he => hr he.symm)]
        rw [hrt route, firstTripOf_append_single]
        rcases hft : firstTripOf processed route with _ | t
        · rw [if_neg (fun he => hr he.symm)]
        · rfl
    · exact nodup_keys_dictInsert _ _ hnd
  · -- the route already has a counter dictionary
    obtain rfl := Except.ok.inj hstep
    have hmem : r.route_id ∈ processed.map (fun x => x.route_id) := by
      have := (hkeys r.route_id).1
      rw [hlk] at this
      exact this (by simp)
    obtain ⟨hndc, hcnt⟩ := hcount r.route_id cands hlk
    refine ⟨?_, ?_, ?_, ?_⟩
    · intro route
      by_cases hr : route = r.route_id
      · subst hr
        simp only [dictLookup_insert_self]
        simp [List.mem_append, hmem]
      · simp only [dictLookup_insert_ne _ _ _ _ (fun he => hr he.symm)]
        rw [hkeys route]
        simp only [List.map_append, List.map_cons, List.map_nil, List.mem_append]
        constructor
        · intro hm
          exact Or.inl hm
        · intro hm
          rcases hm with hm | hm
          · exact hm
          · simp only [List.mem_singleton] at hm
            exact absurd hm hr
    · intro route cands' hc
      by_cases hr : route = r.route_id
      · subst hr
        simp only [dictLookup_insert_self, Option.some.injEq] at hc
        subst hc
        refine ⟨nodup_keys_dictInsert _ _ hndc, fun shape => ?_⟩
        by_cases hs : r.shape_id = shape
        · subst hs
          have hpair : r.route_id = r.route_id ∧ r.shape_id = r.shape_id := ⟨rfl, rfl⟩
          rw [dictLookup_insert_self, tripCount_append_single, if_pos hpair]
          rcases hcs : dictLookup cands r.shape_id with _ | c
          · have := hcnt r.shape_id
            rw [hcs] at this
            have hz : tripCount processed r.route_id r.shape_id = 0 := by
              by_cases h0 : tripCount processed r.route_id r.shape_id = 0
              · exact h0
              · rw [if_neg h0] at this
                cases this
            rw [hz]
            simp
          · have := hcnt r.shape_id
            rw [hcs] at this
            have h0 : tripCount processed r.route_id r.shape_id ≠ 0 := by
              intro hz
              rw [if_pos hz] at this
              cases this
            rw [if_neg h0] at this
            obtain rfl := Option.some.inj this
            simp [h0]
        · have hpair : ¬(r.route_id = r.route_id ∧ r.shape_id = shape) :=
            fun hc2 => hs hc2.2
          rw [dictLookup_insert_ne _ _ _ _ hs, tripCount_append_single,
            if_neg hpair, hcnt shape]
          simp
      · simp only [dictLookup_insert_ne _ _ _ _ (fun he => hr he.symm)] at hc
        obtain ⟨hnd', hcnt'⟩ := hcount route cands' hc
        refine ⟨hnd', fun shape => ?_⟩
        have hpair : ¬(r.route_id = route ∧ r.shape_id = shape) :=
          fun hc2 => hr hc2.1.symm
        rw [hcnt' shape, tripCount_append_single, if_neg hpair]
        simp
    · intro route
      rw [hrt route, firstTripOf_append_single]
      rcases hft : firstTripOf processed route with _ | t
      · by_cases hr : r.route_id = route
        · -- impossible: the route was already seen, so it has a first trip
          subst hr
          obtain ⟨x, hx, hxr⟩ := List.mem_map.1 hmem
          rw [firstTripOf] at hft
          rcases hfind : processed.find? (fun y => y.route_id = r.route_id)
            with _ | z
          · have := List.find?_eq_none.1 hfind x hx
            simp [hxr] at this
          · rw [hfind] at hft
            simp at hft
        · rw [if_neg hr]
      · rfl
    · exact nodup_keys_dictInsert _ _ hnd

theorem buildTripsRef_fold (tt : List (String × TW)) :
    ∀ (rows processed : List TripRow) (acc acc' : TripsAcc),
    foldE (tripsRefStep tt) acc rows = Except.ok acc' →
    TRInv tt processed acc → TRInv tt (processed ++ rows) acc'
  | [], processed, acc, acc', h, hinv => by
    cases h
    simpa using hinv
  | r :: rs, processed, acc, acc', h, hinv => by
    rw [foldE] at h
    rcases hstep : tripsRefStep tt acc r with e | acc₁ <;> rw [hstep] at h
    · exact absurd h (by simp)
    · have h1 := tripsRefStep_inv hstep hinv
      have := buildTripsRef_fold tt rs (processed ++ [r]) acc₁ acc' h h1
      simpa [List.append_assoc] using this

theorem buildTripsRef_spec {tt : List (String × TW)} {rows : List TripRow}
    {tacc : TripsAcc} (h : buildTripsRef tt rows = Except.ok tacc) :
    TRInv tt rows tacc := by
  have h0 : TRInv tt [] ⟨[], []⟩ := by
    refine ⟨fun route => by simp [dictLookup], fun route cands hc => ?_,
      fun route => by simp [dictLookup, firstTripOf], by simp⟩
    simp [dictLookup] at hc
  simpa using buildTripsRef_fold tt rows [] ⟨[], []⟩ tacc h h0

/-! ## Best-shape selection lemmas -/

theorem selectShape_foldl (l : List (String × Nat)) (b : Option String × Nat) :
    b.2 ≤ (l.foldl (fun best p => if best.2 < p.2 then (some p.1, p.2) else best) b).2 ∧
    (∀ p ∈ l,
      p.2 ≤ (l.foldl (fun best p => if best.2 < p.2 then (some p.1, p.2) else best) b).2) ∧
    ((l.foldl (fun best p => if best.2 < p.2 then (some p.1, p.2) else best) b) = b ∨
      ∃ s, (l.foldl (fun best p => if best.2 < p.2 then (some p.1, p.2) else best) b).1 =
          some s ∧
        (s, (l.foldl (fun best p => if best.2 < p.2 then (some p.1, p.2) else best) b).2) ∈ l) := by
  induction l generalizing b with
  | nil => exact ⟨le_refl _, by simp, Or.inl rfl⟩
  | cons p t ih =>
    simp only [List.foldl_cons]
    obtain ⟨hb, hall, hmem⟩ := ih (if b.2 < p.2 then (some p.1, p.2) else b)
    have hb2 : b.2 ≤ (if b.2 < p.2 then (some p.1, p.2) else b).2 := by
      by_cases h : b.2 < p.2 <;> simp [h]
      omega
    have hp2 : p.2 ≤ (if b.2 < p.2 then (some p.1, p.2) else b).2 := by
      by_cases h : b.2 < p.2 <;> simp [h]
      omega
    refine ⟨le_trans hb2 hb, ?_, ?_⟩
    · intro x hx
      rcases List.mem_cons.1 hx with hx | hx
      · subst hx
        exact le_trans hp2 hb
      · exact hall x hx
    · rcases hmem with he | ⟨s, hs, hsm⟩
      · rw [he]
        by_cases h : b.2 < p.2
        · rw [if_pos h] at he ⊢
          exact Or.inr ⟨p.1, rfl, List.mem_cons_self _ _⟩
        · rw [if_neg h] at he ⊢
          exact Or.inl rfl
      · exact Or.inr ⟨s, hs, List.mem_cons_of_mem _ hsm⟩

theorem selectShape_spec (cands : List (String × Nat)) :
    ((selectShape cands).1 = none → ∀ p ∈ cands, p.2 = 0) ∧
    (∀ s, (selectShape cands).1 = some s →
      (s, (selectShape cands).2) ∈ cands ∧
        ∀ p ∈ cands, p.2 ≤ (selectShape cands).2) := by
  obtain ⟨hb, hall, hmem⟩ := selectShape_foldl cands (none, 0)
  constructor
  · intro hn p hp
    rcases hmem with he | ⟨s, hs, _⟩
    · have hz : (selectShape cands).2 = 0 := by
        rw [selectShape, he]
      have := hall p hp
      rw [← selectShape] at this
      omega
    · rw [← selectShape, hn] at hs
      cases hs
  · intro s hs
    rcases hmem with he | ⟨s', hs', hsm⟩
    · rw [selectShape, he] at hs
      cases hs
    · rw [← selectShape] at hs' hsm hall
      rw [hs] at hs'
      obtain rfl := Option.some.inj hs'
      exact ⟨hsm, hall⟩

theorem selectShapes_fold :
    ∀ (tr : List (String × List (String × Nat))) (acc trips : List (String × String)),
    (tr.map Prod.fst).Nodup →
    foldE selectStep acc tr = Except.ok trips →
    ∀ route, dictLookup trips route =
      match dictLookup tr route with
      | some cands => (selectShape cands).1
      | none => dictLookup acc route
  | [], acc, trips, _, h, route => by
    cases h
    simp [dictLookup]
  | rc :: rest, acc, trips, hnd, h, route => by
    rw [foldE] at h
    rcases hsel : selectStep acc rc with e | acc₁
    · rw [hsel] at h
      exact absurd h (by simp)
    · rw [hsel] at h
      rw [selectStep] at hsel
      rcases hbest : (selectShape rc.2).1 with _ | s <;> rw [hbest] at hsel
      · exact absurd hsel (by simp)
      obtain rfl := Except.ok.inj hsel
      simp only [List.map_cons, List.nodup_cons] at hnd
      have hrec := selectShapes_fold rest (dictInsert acc rc.1 s) trips hnd.2 h route
      by_cases hr : rc.1 = route
      · subst hr
        rw [hrec]
        have hnone : dictLookup rest rc.1 = none := by
          cases hlr : dictLookup rest rc.1 with
          | none => rfl
          | some v =>
            exact absurd (List.mem_map.2 ⟨(rc.1, v), mem_of_lookup hlr, rfl⟩) hnd.1
        rw [hnone, dictLookup_insert_self, dictLookup_cons, if_pos rfl]
        show some s = (selectShape rc.2).1
        rw [hbest]
      · rw [hrec, dictLookup_cons, if_neg hr]
        rcases hlr : dictLookup rest route with _ | v
        · show dictLookup (dictInsert acc rc.1 s) route = dictLookup acc route
          exact dictLookup_insert_ne _ _ _ _ hr
        · rfl

/-- **C9**: after the trips table is fully consumed, every route present in
the reference-count map has at least one candidate shape with a count of at
least 1, so the selection loop finds a shape for every route and the
`popular_shape is not None` assertion can never fail: `selectShapes` on the
resulting map always returns `ok`, with a shape for every counted route. -/
theorem C9_selection_total {tt : List (String × TW)} {rows : List TripRow}
    {tacc : TripsAcc} (h : buildTripsRef tt rows = Except.ok tacc) :
    (∀ route cands, dictLookup tacc.trips_ref route = some cands →
      ∃ p ∈ cands, 1 ≤ p.2) ∧
    ∃ trips, selectShapes tacc.trips_ref = Except.ok trips ∧
      ∀ route, (dictLookup tacc.trips_ref route).isSome = true →
        (dictLookup trips route).isSome = true := by
  obtain ⟨hkeys, hcount, hrt, hnd⟩ := buildTripsRef_spec h
  have hpos : ∀ route cands, dictLookup tacc.trips_ref route = some cands →
      ∃ p ∈ cands, 1 ≤ p.2 := by
    intro route cands hc
    obtain ⟨hndc, hcnt⟩ := hcount route cands hc
    have hsome := (hkeys route).1 (by simp [hc])
    obtain ⟨x, hx, hxr⟩ := List.mem_map.1 hsome
    have hne : tripCount rows route x.shape_id ≠ 0 := by
      rw [tripCount, Ne, List.countP_eq_zero]
      intro hall
      exact absurd (by simp [hxr]) (hall x hx)
    have hcx := hcnt x.shape_id
    rw [if_neg hne] at hcx
    refine ⟨(x.shape_id, tripCount rows route x.shape_id), mem_of_lookup hcx, ?_⟩
    omega
  refine ⟨hpos, ?_⟩
  have hok : ∀ (tr : List (String × List (String × Nat)))
      (acc : List (String × String)),
      (∀ route cands, dictLookup tr route = some cands → ∃ p ∈ cands, 1 ≤ p.2) →
      (tr.map Prod.fst).Nodup →
      ∃ trips, foldE selectStep acc tr = Except.ok trips := by
    intro tr
    induction tr with
    | nil => exact fun acc _ _ => ⟨acc, rfl⟩
    | cons rc rest ih =>
      intro acc hall hnd'
      simp only [List.map_cons, List.nodup_cons] at hnd'
      have hrc : ∃ p ∈ rc.2, 1 ≤ p.2 := by
        refine hall rc.1 rc.2 ?_
        rw [dictLookup_cons, if_pos rfl]
      obtain ⟨p, hp, hp1⟩ := hrc
      have hsel : ∃ s, (selectShape rc.2).1 = some s := by
        rcases hbest : (selectShape rc.2).1 with _ | s
        · have := (selectShape_spec rc.2).1 hbest p hp
          omega
        · exact ⟨s, rfl⟩
      obtain ⟨s, hs⟩ := hsel
      rw [foldE, selectStep, hs]
      refine ih (dictInsert acc rc.1 s) ?_ hnd'.2
      intro route cands hc
      refine hall route cands ?_
      rw [dictLookup_cons]
      by_cases hr : rc.1 = route
      · subst hr
        exact absurd (List.mem_map.2 ⟨(rc.1, cands), mem_of_lookup hc, rfl⟩) hnd'.1
      · rw [if_neg hr]
        exact hc
  obtain ⟨trips, htrips⟩ := hok tacc.trips_ref [] hpos hnd
  refine ⟨trips, htrips, fun route hsome => ?_⟩
  rcases hc : dictLookup tacc.trips_ref route with _ | cands
  · rw [hc] at hsome
    simp at hsome
  · have hchar := selectShapes_fold tacc.trips_ref [] trips hnd htrips route
    rw [hc] at hchar
    obtain ⟨p, hp, hp1⟩ := hpos route cands hc
    rcases hbest : (selectShape cands).1 with _ | s
    · have := (selectShape_spec cands).1 hbest p hp
      omega
    · rw [hchar]
      show ((selectShape cands).1).isSome = true
      rw [hbest]
      rfl

/-- Concrete instance of C9: for a two-row trips table the selection
succeeds and returns a shape for the route. -/
theorem C9_selection_total_witness :
    (∃ p ∈ [("A", 2)], 1 ≤ p.2) ∧
    ∃ trips, selectShapes [("R1", [("A", 2)])] = Except.ok trips ∧
      (dictLookup trips "R1").isSome = true := by
  have h := @C9_selection_total
    [("T1", ⟨some 1, some 1, some 0, some 0⟩)]
    [⟨"R1", "A", "T1"⟩, ⟨"R1", "A", "T2"⟩]
    ⟨[("R1", [("A", 2)])], [("R1", ⟨some 1, some 1, some 0, some 0⟩)]⟩
    rfl
  obtain ⟨h1, trips, h2, h3⟩ := h
  exact ⟨h1 "R1" [("A", 2)] rfl, trips, h2, h3 "R1" rfl⟩

/-! ## Routes loop lemmas (C3, C5, C7) -/

section RoutesFold

variable (hasDist : Bool) (shapeLines : List (String × List (ℚ × ℚ)))
variable (shape_lengths : List (String × ℚ))
variable (trips_ref : List (String × List (String × Nat)))
variable (route_time : List (String × TW)) (trips : List (String × String))
variable (header : List String) (ricol : Nat)

theorem routesFold_frame :
    ∀ (rows : List (List String)) (st out : RouteOut),
    foldE (routesStep hasDist shapeLines shape_lengths trips_ref route_time trips
      header ricol) st rows = Except.ok out →
    ∃ df dw, out.features = st.features ++ df ∧ out.warnings = st.warnings ++ dw ∧
      (∀ f ∈ df, ∃ row ∈ rows,
        routeFeature? hasDist shapeLines shape_lengths trips_ref route_time trips
          header ricol row = Except.ok (some f)) ∧
      (∀ st' : RouteOut,
        foldE (routesStep hasDist shapeLines shape_lengths trips_ref route_time trips
          header ricol) st' rows =
          Except.ok ⟨st'.features ++ df, st'.warnings ++ dw⟩)
  | [], st, out, h => by
    cases h
    refine ⟨[], [], by simp, by simp, by simp, fun st' => ?_⟩
    rw [foldE]
    cases st'
    simp
  | row :: rows, st, out, h => by
    rw [foldE] at h
    rcases hstep : routesStep hasDist shapeLines shape_lengths trips_ref route_time
        trips header ricol st row with e | st₁ <;> rw [hstep] at h
    · exact absurd h (by simp)
    rw [routesStep] at hstep
    rcases hrf : routeFeature? hasDist shapeLines shape_lengths trips_ref route_time
        trips header ricol row with e | opt <;> rw [hrf] at hstep
    · exact absurd hstep (by simp)
    obtain ⟨df, dw, hf, hw, horig, hrerun⟩ :=
      routesFold_frame rows st₁ out h
    cases opt with
    | none =>
      obtain rfl := Except.ok.inj hstep
      refine ⟨df, [row] ++ dw, by simpa using hf, by simpa using hw, ?_, ?_⟩
      · intro f hfm
        obtain ⟨row', hrow', hfeat⟩ := horig f hfm
        exact ⟨row', List.mem_cons_of_mem _ hrow', hfeat⟩
      · intro st'
        rw [foldE, routesStep, hrf]
        have := hrerun { st' with warnings := st'.warnings ++ [row] }
        simpa using this
    | some f =>
      obtain rfl := Except.ok.inj hstep
      refine ⟨[f] ++ df, dw, by simpa using hf, by simpa using hw, ?_, ?_⟩
      · intro g hgm
        rcases List.mem_cons.1 hgm with hg | hg
        · exact ⟨row, List.mem_cons_self _ _, hg ▸ hrf⟩
        · obtain ⟨row', hrow', hfeat⟩ := horig g hg
          exact ⟨row', List.mem_cons_of_mem _ hrow', hfeat⟩
      · intro st'
        rw [foldE, routesStep, hrf]
        have := hrerun { st' with features := st'.features ++ [f] }
        simpa using this

end RoutesFold

theorem gtfs_routes_eq {stopTimes : List StRow} {hasDist : Bool}
    {shapeRows : List ShRow} {tripRows : List TripRow} {routesHeader : List String}
    {tt : List (String × TW)} {acc : ShapesAcc} {tacc : TripsAcc}
    {trips : List (String × String)} {ricol : Nat}
    (htt : gtfsTripTimes stopTimes = Except.ok tt)
    (hsh : buildShapes hasDist shapeRows = Except.ok acc)
    (htr : buildTripsRef tt tripRows = Except.ok tacc)
    (hsel : selectShapes tacc.trips_ref = Except.ok trips)
    (hcol : colIndex routesHeader "route_id" = some ricol)
    (routeRows : List (List String)) :
    gtfs_routes stopTimes hasDist shapeRows tripRows routesHeader routeRows =
      foldE (routesStep hasDist (assembleLines acc.shapes) acc.shape_lengths
        tacc.trips_ref tacc.route_time trips routesHeader ricol) ⟨[], []⟩ routeRows := by
  simp only [gtfs_routes, htt, hsh, htr, hsel, hcol]

theorem gtfs_routes_ok {stopTimes : List StRow} {hasDist : Bool}
    {shapeRows : List ShRow} {tripRows : List TripRow} {routesHeader : List String}
    {routeRows : List (List String)} {out : RouteOut}
    (h : gtfs_routes stopTimes hasDist shapeRows tripRows routesHeader routeRows =
      Except.ok out) :
    ∃ tt acc tacc trips ricol,
      gtfsTripTimes stopTimes = Except.ok tt ∧
      buildShapes hasDist shapeRows = Except.ok acc ∧
      buildTripsRef tt tripRows = Except.ok tacc ∧
      selectShapes tacc.trips_ref = Except.ok trips ∧
      colIndex routesHeader "route_id" = some ricol ∧
      foldE (routesStep hasDist (assembleLines acc.shapes) acc.shape_lengths
        tacc.trips_ref tacc.route_time trips routesHeader ricol) ⟨[], []⟩ routeRows =
        Except.ok out := by
  rw [gtfs_routes] at h
  rcases htt : gtfsTripTimes stopTimes with e | tt <;> simp only [htt] at h
  · exact absurd h (by simp)
  rcases hsh : buildShapes hasDist shapeRows with e | acc <;> simp only [hsh] at h
  · exact absurd h (by simp)
  rcases htr : buildTripsRef tt tripRows with e | tacc <;> simp only [htr] at h
  · exact absurd h (by simp)
  rcases hsel : selectShapes tacc.trips_ref with e | trips <;> simp only [hsel] at h
  · exact absurd h (by simp)
  rcases hcol : colIndex routesHeader "route_id" with _ | ricol <;>
    simp only [hcol] at h
  · exact absurd h (by simp)
  exact ⟨tt, acc, tacc, trips, ricol, rfl, rfl, htr, hsel, rfl, h⟩

theorem propsFold_ok (exclude : List String) (row : List String) :
    ∀ (l : List (Nat × String)) (ps : List (String × String)),
    (∀ p ∈ l, p.1 < row.length) →
    ∃ ps', foldE (propsStep exclude row) ps l = Except.ok ps'
  | [], ps, _ => ⟨ps, rfl⟩
  | p :: t, ps, hb => by
    rw [foldE, propsStep]
    by_cases hex : p.2 ∈ exclude
    · rw [if_pos hex]
      exact propsFold_ok exclude row t ps
        (fun q hq => hb q (List.mem_cons_of_mem _ hq))
    · rw [if_neg hex]
      rcases hg : row.get? p.1 with _ | v
      · have h1 := List.get?_eq_none.1 hg
        have h2 := hb p (List.mem_cons_self _ _)
        omega
      · exact propsFold_ok exclude row t _
          (fun q hq => hb q (List.mem_cons_of_mem _ hq))

theorem mkProps_ok (exclude : List String) (header row : List String)
    (hlen : header.length ≤ row.length) :
    ∃ ps, mkProps exclude header row = Except.ok ps := by
  rw [mkProps]
  refine propsFold_ok exclude row header.enum [] ?_
  intro p hp
  have hg := List.mem_enum_iff_get?.1 hp
  have hlt : p.1 < header.length := by
    by_contra hc
    rw [List.get?_eq_none.2 (le_of_not_lt hc)] at hg
    cases hg
  exact lt_of_lt_of_le hlt hlen

/-- **C7**: under the implemented lenient policy, a routes-table row whose
route identifier appears in no trips-table row is skipped: the run emits a
warning naming the row, omits that route's feature (the feature list is
exactly that of the run without the row), processes the remaining rows, and
does not abort. -/
theorem C7_route_without_trips (stopTimes : List StRow) (hasDist : Bool)
    (shapeRows : List ShRow) (tripRows : List TripRow)
    (routesHeader : List String) (l₁ l₂ : List (List String))
    (row : List String) (ricol : Nat) (rid : String) (out' : RouteOut)
    (hcol : colIndex routesHeader "route_id" = some ricol)
    (hrow : row.get? ricol = some rid)
    (hlen : routesHeader.length ≤ row.length)
    (habs : ∀ t ∈ tripRows, t.route_id ≠ rid)
    (hrun : gtfs_routes stopTimes hasDist shapeRows tripRows routesHeader
      (l₁ ++ l₂) = Except.ok out') :
    ∃ out, gtfs_routes stopTimes hasDist shapeRows tripRows routesHeader
        (l₁ ++ row :: l₂) = Except.ok out ∧
      out.features = out'.features ∧ row ∈ out.warnings ∧
      out.warnings.length = out'.warnings.length + 1 := by
  obtain ⟨tt, acc, tacc, trips, ricol', htt, hsh, htr, hsel, hcol', hfold⟩ :=
    gtfs_routes_ok hrun
  have hric : ricol' = ricol := by
    rw [hcol] at hcol'
    exact (Option.some.inj hcol').symm
  rw [hric] at hfold
  obtain ⟨hkeys, hcount, hrt, hnd⟩ := buildTripsRef_spec htr
  have hmem : rid ∉ tripRows.map (fun r => r.route_id) := by
    intro hm
    obtain ⟨x, hx, hxr⟩ := List.mem_map.1 hm
    exact habs x hx hxr
  have hnone : dictLookup tacc.trips_ref rid = none := by
    rcases hl : dictLookup tacc.trips_ref rid with _ | v
    · rfl
    · exact absurd ((hkeys rid).1 (by simp [hl])) hmem
  have hchar := selectShapes_fold tacc.trips_ref [] trips hnd hsel rid
  rw [hnone] at hchar
  have htnone : dictLookup trips rid = none := hchar
  obtain ⟨ps, hps⟩ := mkProps_ok [] routesHeader row hlen
  have hrf : routeFeature? hasDist (assembleLines acc.shapes) acc.shape_lengths
      tacc.trips_ref tacc.route_time trips routesHeader ricol row =
      Except.ok none := by
    simp only [routeFeature?, hps, hrow, htnone]
  obtain ⟨st₁, hm1, hm2⟩ := foldE_ok_of_append hfold
  obtain ⟨df, dw, hf, hw, -, hrerun⟩ := routesFold_frame hasDist
    (assembleLines acc.shapes) acc.shape_lengths tacc.trips_ref tacc.route_time
    trips routesHeader ricol l₂ st₁ out' hm2
  refine ⟨⟨st₁.features ++ df, (st₁.warnings ++ [row]) ++ dw⟩, ?_, ?_, ?_, ?_⟩
  · rw [gtfs_routes_eq htt hsh htr hsel hcol (l₁ ++ row :: l₂)]
    rw [foldE_append]
    simp only [hm1]
    rw [foldE]
    simp only [routesStep, hrf]
    exact hrerun ⟨st₁.features, st₁.warnings ++ [row]⟩
  · rw [hf]
  · simp
  · rw [hw]
    simp only [List.length_append, List.length_cons, List.length_nil]
    omega

/-- Concrete instance of C7: the routes row `["R9"]`, whose identifier
appears in no trips row, is skipped with a warning naming it while `R1`
is still emitted. -/
theorem C7_route_without_trips_witness :
    ∃ out, gtfs_routes [⟨"T1", "1:0:0", "0:30:0", "1"⟩] false
        [⟨"SA", "0", "0", "1", ""⟩] [⟨"R1", "SA", "T1"⟩] ["route_id"]
        ([] ++ ["R9"] :: [["R1"]]) = Except.ok out ∧
      out.features = (⟨[⟨[((0 : ℚ), (0 : ℚ))],
          [("route_id", PVal.s "R1"), ("shape_id", PVal.s "SA"),
            ("shape_refs", PVal.n 1), ("duration_sec", PVal.i 1800)], "R1"⟩],
          []⟩ : RouteOut).features ∧
      ["R9"] ∈ out.warnings ∧
      out.warnings.length =
        (⟨[⟨[((0 : ℚ), (0 : ℚ))],
          [("route_id", PVal.s "R1"), ("shape_id", PVal.s "SA"),
            ("shape_refs", PVal.n 1), ("duration_sec", PVal.i 1800)], "R1"⟩],
          []⟩ : RouteOut).warnings.length + 1 :=
  C7_route_without_trips [⟨"T1", "1:0:0", "0:30:0", "1"⟩] false
    [⟨"SA", "0", "0", "1", ""⟩] [⟨"R1", "SA", "T1"⟩] ["route_id"]
    [] [["R1"]] ["R9"] 0 "R9" _ rfl rfl (by decide) (by decide) rfl

theorem routeFeature?_some {hasDist : Bool} {shapeLines : List (String × List (ℚ × ℚ))}
    {shape_lengths : List (String × ℚ)} {trips_ref : List (String × List (String × Nat))}
    {route_time : List (String × TW)} {trips : List (String × String)}
    {header : List String} {ricol : Nat} {row : List String} {f : Feature}
    (h : routeFeature? hasDist shapeLines shape_lengths trips_ref route_time trips
      header ricol row = Except.ok (some f)) :
    ∃ rid shape cands refs w line,
      row.get? ricol = some rid ∧
      dictLookup trips rid = some shape ∧
      dictLookup trips_ref rid = some cands ∧
      dictLookup cands shape = some refs ∧
      dictLookup route_time rid = some w ∧
      (∃ a d, w.arr = some a ∧ w.dep = some d ∧
        dictLookup f.props "duration_sec" = some (PVal.i (a - d))) ∧
      dictLookup shapeLines shape = some line ∧
      f.fid = rid ∧ f.geometry = line ∧
      dictLookup f.props "shape_id" = some (PVal.s shape) ∧
      dictLookup f.props "shape_refs" = some (PVal.n refs) := by
  rw [routeFeature?] at h
  rcases hmk : mkProps [] header row with e | props0 <;> simp only [hmk] at h
  · exact absurd h (by simp)
  rcases hrowg : row.get? ricol with _ | rid <;> simp only [hrowg] at h
  · exact absurd h (by simp)
  rcases htl : dictLookup trips rid with _ | shape <;> simp only [htl] at h
  · exact absurd h (by simp)
  rcases htrr : dictLookup trips_ref rid with _ | cands <;> simp only [htrr] at h
  · exact absurd h (by simp)
  rcases hcs : dictLookup cands shape with _ | refs <;> simp only [hcs] at h
  · exact absurd h (by simp)
  by_cases hd : hasDist ∧ shape_lengths ≠ []
  · simp only [if_pos hd] at h
    rcases hsl : dictLookup shape_lengths shape with _ | len <;> simp only [hsl] at h
    · exact absurd h (by simp)
    rcases hrtl : dictLookup route_time rid with _ | w <;> simp only [hrtl] at h
    · exact absurd h (by simp)
    rcases harr : w.arr with _ | a
    · rcases hdep : w.dep with _ | d <;> simp only [harr, hdep] at h <;>
        exact absurd h (by simp)
    rcases hdep : w.dep with _ | d <;> simp only [harr, hdep] at h
    · exact absurd h (by simp)
    rcases hln : dictLookup shapeLines shape with _ | line <;> simp only [hln] at h
    · exact absurd h (by simp)
    obtain rfl := (Option.some.inj (Except.ok.inj h)).symm
    refine ⟨rid, shape, cands, refs, w, line, rfl, htl, htrr, hcs, hrtl,
      ⟨a, d, harr, hdep, ?_⟩, hln, rfl, rfl, ?_, ?_⟩
    · exact dictLookup_insert_self _ _ _
    · show dictLookup (dictInsert _ "duration_sec" _) "shape_id" = _
      rw [dictLookup_insert_ne _ _ _ _ (by decide),
        dictLookup_insert_ne _ _ _ _ (by decide),
        dictLookup_insert_ne _ _ _ _ (by decide),
        dictLookup_insert_self]
    · show dictLookup (dictInsert _ "duration_sec" _) "shape_refs" = _
      rw [dictLookup_insert_ne _ _ _ _ (by decide),
        dictLookup_insert_ne _ _ _ _ (by decide),
        dictLookup_insert_self]
  · simp only [if_neg hd] at h
    rcases hrtl : dictLookup route_time rid with _ | w <;> simp only [hrtl] at h
    · exact absurd h (by simp)
    rcases harr : w.arr with _ | a
    · rcases hdep : w.dep with _ | d <;> simp only [harr, hdep] at h <;>
        exact absurd h (by simp)
    rcases hdep : w.dep with _ | d <;> simp only [harr, hdep] at h
    · exact absurd h (by simp)
    rcases hln : dictLookup shapeLines shape with _ | line <;> simp only [hln] at h
    · exact absurd h (by simp)
    obtain rfl := (Option.some.inj (Except.ok.inj h)).symm
    refine ⟨rid, shape, cands, refs, w, line, rfl, htl, htrr, hcs, hrtl,
      ⟨a, d, harr, hdep, ?_⟩, hln, rfl, rfl, ?_, ?_⟩
    · exact dictLookup_insert_self _ _ _
    · show dictLookup (dictInsert _ "duration_sec" _) "shape_id" = _
      rw [dictLookup_insert_ne _ _ _ _ (by decide),
        dictLookup_insert_ne _ _ _ _ (by decide),
        dictLookup_insert_self]
    · show dictLookup (dictInsert _ "duration_sec" _) "shape_refs" = _
      rw [dictLookup_insert_ne _ _ _ _ (by decide),
        dictLookup_insert_self]

/-- **C3**: for every emitted route feature, `shape_refs` equals the number
of trips-table rows whose (route, shape) pair matches the feature's route
and its emitted `shape_id`, and no other shape has a strictly greater row
count for that route. -/
theorem C3_shape_refs (stopTimes : List StRow) (hasDist : Bool)
    (shapeRows : List ShRow) (tripRows : List TripRow)
    (routesHeader : List String) (routeRows : List (List String)) (out : RouteOut)
    (hrun : gtfs_routes stopTimes hasDist shapeRows tripRows routesHeader
      routeRows = Except.ok out) :
    ∀ f ∈ out.features, ∃ shape,
      dictLookup f.props "shape_id" = some (PVal.s shape) ∧
      dictLookup f.props "shape_refs" =
        some (PVal.n (tripCount tripRows f.fid shape)) ∧
      ∀ s', tripCount tripRows f.fid s' ≤ tripCount tripRows f.fid shape := by
  obtain ⟨tt, acc, tacc, trips, ricol, htt, hsh, htr, hsel, hcol, hfold⟩ :=
    gtfs_routes_ok hrun
  obtain ⟨df, dw, hf, hw, horig, -⟩ := routesFold_frame hasDist
    (assembleLines acc.shapes) acc.shape_lengths tacc.trips_ref tacc.route_time
    trips routesHeader ricol routeRows ⟨[], []⟩ out hfold
  intro f hfm
  rw [hf] at hfm
  simp only [List.nil_append] at hfm
  obtain ⟨row, hrowm, hfeat⟩ := horig f hfm
  obtain ⟨rid, shape, cands, refs, w, line, hrowg, htl, htrr, hcs, hrtl,
    hdur, hln, hfid, hgeom, hsid, hsrefs⟩ := routeFeature?_some hfeat
  obtain ⟨hkeys, hcount, hrt, hnd⟩ := buildTripsRef_spec htr
  have hchar := selectShapes_fold tacc.trips_ref [] trips hnd hsel rid
  rcases hcl : dictLookup tacc.trips_ref rid with _ | cands₀
  · rw [hcl] at hchar
    have hcontra : dictLookup trips rid = none := hchar
    rw [htl] at hcontra
    cases hcontra
  rw [hcl] at hchar
  obtain rfl := Option.some.inj (htrr.symm.trans hcl)
  have hbest : (selectShape cands).1 = some shape := by
    have h2 : dictLookup trips rid = (selectShape cands).1 := hchar
    rw [htl] at h2
    exact h2.symm
  obtain ⟨hmemsel, hmax⟩ := (selectShape_spec cands).2 shape hbest
  obtain ⟨hndc, hcnt⟩ := hcount rid cands hcl
  have hrefs : refs = tripCount tripRows rid shape := by
    have h3 := hcnt shape
    rw [hcs] at h3
    by_cases h0 : tripCount tripRows rid shape = 0
    · rw [if_pos h0] at h3
      cases h3
    · rw [if_neg h0] at h3
      exact Option.some.inj h3
  have hsel2 : (selectShape cands).2 = refs := by
    have h4 := lookup_of_mem_nodup hndc hmemsel
    rw [hcs] at h4
    exact (Option.some.inj h4).symm
  refine ⟨shape, hsid, ?_, ?_⟩
  · rw [hfid, ← hrefs]
    exact hsrefs
  · intro s'
    rw [hfid, ← hrefs]
    by_cases h0 : tripCount tripRows rid s' = 0
    · omega
    · have h5 := hcnt s'
      rw [if_neg h0] at h5
      have h6 := hmax _ (mem_of_lookup h5)
      rw [hsel2] at h6
      exact h6

/-- Concrete instance of C3: route `R1` has two trip rows on shape `A` and
one on shape `B`; the emitted feature carries `shape_id = A` and
`shape_refs = 2`, the matching row count, which no other shape exceeds. -/
theorem C3_shape_refs_witness :
    ∃ shape,
      dictLookup [("route_id", PVal.s "R1"), ("shape_id", PVal.s "A"),
          ("shape_refs", PVal.n 2), ("duration_sec", PVal.i 1800)]
        "shape_id" = some (PVal.s shape) ∧
      dictLookup [("route_id", PVal.s "R1"), ("shape_id", PVal.s "A"),
          ("shape_refs", PVal.n 2), ("duration_sec", PVal.i 1800)]
        "shape_refs" = some (PVal.n (tripCount
          [⟨"R1", "A", "T1"⟩, ⟨"R1", "A", "T2"⟩, ⟨"R1", "B", "T3"⟩] "R1" shape)) ∧
      ∀ s', tripCount [⟨"R1", "A", "T1"⟩, ⟨"R1", "A", "T2"⟩, ⟨"R1", "B", "T3"⟩]
          "R1" s' ≤
        tripCount [⟨"R1", "A", "T1"⟩, ⟨"R1", "A", "T2"⟩, ⟨"R1", "B", "T3"⟩]
          "R1" shape :=
  C3_shape_refs [⟨"T1", "1:0:0", "0:30:0", "1"⟩] false [⟨"A", "0", "0", "1", ""⟩]
    [⟨"R1", "A", "T1"⟩, ⟨"R1", "A", "T2"⟩, ⟨"R1", "B", "T3"⟩] ["route_id"]
    [["R1"]]
    ⟨[⟨[((0 : ℚ), (0 : ℚ))],
      [("route_id", PVal.s "R1"), ("shape_id", PVal.s "A"),
        ("shape_refs", PVal.n 2), ("duration_sec", PVal.i 1800)], "R1"⟩], []⟩
    rfl
    ⟨[((0 : ℚ), (0 : ℚ))],
      [("route_id", PVal.s "R1"), ("shape_id", PVal.s "A"),
        ("shape_refs", PVal.n 2), ("duration_sec", PVal.i 1800)], "R1"⟩
    (List.mem_singleton.2 rfl)

/-! ## Window characterization lemmas (C5) -/

theorem twSpec_append_skip {processed : List StRow} {r : StRow} {t : String}
    {w : TW} (h : twSpec processed t w)
    (hskip : r.trip_id ≠ t ∨ ¬ validRow r) : twSpec (processed ++ [r]) t w := by
  have hr : ∀ x ∈ [r], x.trip_id = t → validRow x → False := by
    intro x hx h1 h2
    rw [List.mem_singleton.1 hx] at h1 h2
    rcases hskip with hs | hs
    · exact hs h1
    · exact hs h2
  rcases h with ⟨hw, hall⟩ | ⟨es, ls, d, a, hw, hdep, harr, hbound⟩
  · refine Or.inl ⟨hw, fun x hx h1 h2 => ?_⟩
    rcases List.mem_append.1 hx with hx | hx
    · exact hall x hx h1 h2
    · exact hr x hx h1 h2
  · refine Or.inr ⟨es, ls, d, a, hw, ?_, ?_, ?_⟩
    · obtain ⟨x, hx, hrest⟩ := hdep
      exact ⟨x, List.mem_append_left _ hx, hrest⟩
    · obtain ⟨x, hx, hrest⟩ := harr
      exact ⟨x, List.mem_append_left _ hx, hrest⟩
    · intro x hx h1 h2
      rcases List.mem_append.1 hx with hx | hx
      · exact hbound x hx h1 h2
      · exact absurd h2 (fun h2 => hr x hx h1 h2)

theorem twSpec_update {processed : List StRow} {r : StRow} {t : String} {w : TW}
    {q d a : Int} (h : twSpec processed t w) (hrt : r.trip_id = t)
    (hval : validRow r) (hq : pyInt r.stop_sequence.toList = some q)
    (hd : time_as_timedelta r.departure_time = some d)
    (ha : time_as_timedelta r.arrival_time = some a) :
    twSpec (processed ++ [r]) t (twUpdate w q d a) := by
  have hrmem : r ∈ processed ++ [r] := List.mem_append_right _ (List.mem_singleton.2 rfl)
  rcases h with ⟨hw, hall⟩ | ⟨es, ls, d₀, a₀, hw, hdep, harr, hbound⟩
  · subst hw
    rw [twUpdate_nn]
    refine Or.inr ⟨q, q, d, a, rfl, ⟨r, hrmem, hrt, hval, hq, hd⟩,
      ⟨r, hrmem, hrt, hval, hq, ha⟩, ?_⟩
    intro x hx h1 h2
    rcases List.mem_append.1 hx with hx | hx
    · exact absurd h2 (hall x hx h1)
    · rw [List.mem_singleton.1 hx]
      exact ⟨q, hq, le_refl q, le_refl q⟩
  · subst hw
    rw [twUpdate_ss]
    obtain ⟨r₁, hr₁m, hr₁t, hr₁v, hr₁q, hr₁d⟩ := hdep
    obtain ⟨r₂, hr₂m, hr₂t, hr₂v, hr₂q, hr₂a⟩ := harr
    by_cases h₁ : es > q <;> by_cases h₂ : ls < q <;>
      simp only [if_pos, if_neg, h₁, h₂, if_true, if_false]
    · -- es > q and ls < q: the new row is both the earliest and the latest
      refine Or.inr ⟨q, q, d, a, by simp [h₁, h₂], ⟨r, hrmem, hrt, hval, hq, hd⟩,
        ⟨r, hrmem, hrt, hval, hq, ha⟩, ?_⟩
      intro x hx h1 h2
      rcases List.mem_append.1 hx with hx | hx
      · obtain ⟨qx, hqx, heq, hql⟩ := hbound x hx h1 h2
        exact ⟨qx, hqx, by omega, by omega⟩
      · rw [List.mem_singleton.1 hx]
        exact ⟨q, hq, le_refl q, le_refl q⟩
    · -- es > q only: new earliest, latest unchanged
      refine Or.inr ⟨q, ls, d, a₀, by simp [h₁, h₂], ⟨r, hrmem, hrt, hval, hq, hd⟩,
        ⟨r₂, List.mem_append_left _ hr₂m, hr₂t, hr₂v, hr₂q, hr₂a⟩, ?_⟩
      intro x hx h1 h2
      rcases List.mem_append.1 hx with hx | hx
      · obtain ⟨qx, hqx, heq, hql⟩ := hbound x hx h1 h2
        exact ⟨qx, hqx, by omega, hql⟩
      · rw [List.mem_singleton.1 hx]
        exact ⟨q, hq, le_refl q, by omega⟩
    · -- ls < q only: new latest, earliest unchanged
      refine Or.inr ⟨es, q, d₀, a, by simp [h₁, h₂],
        ⟨r₁, List.mem_append_left _ hr₁m, hr₁t, hr₁v, hr₁q, hr₁d⟩,
        ⟨r, hrmem, hrt, hval, hq, ha⟩, ?_⟩
      intro x hx h1 h2
      rcases List.mem_append.1 hx with hx | hx
      · obtain ⟨qx, hqx, heq, hql⟩ := hbound x hx h1 h2
        exact ⟨qx, hqx, heq, by omega⟩
      · rw [List.mem_singleton.1 hx]
        exact ⟨q, hq, by omega, le_refl q⟩
    · -- window unchanged
      refine Or.inr ⟨es, ls, d₀, a₀, by simp [h₁, h₂],
        ⟨r₁, List.mem_append_left _ hr₁m, hr₁t, hr₁v, hr₁q, hr₁d⟩,
        ⟨r₂, List.mem_append_left _ hr₂m, hr₂t, hr₂v, hr₂q, hr₂a⟩, ?_⟩
      intro x hx h1 h2
      rcases List.mem_append.1 hx with hx | hx
      · exact hbound x hx h1 h2
      · rw [List.mem_singleton.1 hx]
        exact ⟨q, hq, by omega, by omega⟩

theorem tripTimesStep_invalid_fresh {tt : List (String × TW)} {r : StRow}
    (hbad : ¬ validRow r) (hlk : dictLookup tt r.trip_id = none) :
    tripTimesStep tt r =
      Except.ok (dictInsert tt r.trip_id ⟨none, none, none, none⟩) := by
  rcases ha : time_as_timedelta r.arrival_time with _ | a <;>
    rcases hd : time_as_timedelta r.departure_time with _ | d <;>
      simp only [tripTimesStep, ha, hd, hlk] <;>
        exact absurd ⟨by rw [ha]; rfl, by rw [hd]; rfl⟩ hbad

theorem tripTimesStep_invalid_seen {tt : List (String × TW)} {r : StRow} {w₀ : TW}
    (hbad : ¬ validRow r) (hlk : dictLookup tt r.trip_id = some w₀) :
    tripTimesStep tt r = Except.ok tt := by
  rcases ha : time_as_timedelta r.arrival_time with _ | a <;>
    rcases hd : time_as_timedelta r.departure_time with _ | d <;>
      simp only [tripTimesStep, ha, hd, hlk] <;>
        exact absurd ⟨by rw [ha]; rfl, by rw [hd]; rfl⟩ hbad

theorem tripTimesStep_valid {tt tt' : List (String × TW)} {r : StRow} {a d : Int}
    (ha : time_as_timedelta r.arrival_time = some a)
    (hd : time_as_timedelta r.departure_time = some d)
    (hstep : tripTimesStep tt r = Except.ok tt') :
    ∃ q w₀, pyInt r.stop_sequence.toList = some q ∧
      (dictLookup tt r.trip_id = some w₀ ∨
        (dictLookup tt r.trip_id = none ∧ w₀ = ⟨none, none, none, none⟩)) ∧
      dictLookup tt' r.trip_id = some (twUpdate w₀ q d a) ∧
      ∀ t, t ≠ r.trip_id → dictLookup tt' t = dictLookup tt t := by
  rw [tripTimesStep] at hstep
  rcases hlk : dictLookup tt r.trip_id with _ | w₀ <;>
    simp only [hlk, ha, hd] at hstep
  · rcases hq : pyInt r.stop_sequence.toList with _ | q <;>
      simp only [hq, dictLookup_insert_self] at hstep
    · exact absurd hstep (by simp)
    obtain rfl := (Except.ok.inj hstep).symm
    refine ⟨q, ⟨none, none, none, none⟩, rfl, Or.inr ⟨rfl, rfl⟩,
      dictLookup_insert_self _ _ _, fun t ht => ?_⟩
    rw [dictLookup_insert_ne _ _ _ _ (fun he => ht he.symm),
      dictLookup_insert_ne _ _ _ _ (fun he => ht he.symm)]
  · rcases hq : pyInt r.stop_sequence.toList with _ | q <;>
      simp only [hq, hlk] at hstep
    · exact absurd hstep (by simp)
    obtain rfl := (Except.ok.inj hstep).symm
    refine ⟨q, w₀, rfl, Or.inl rfl, dictLookup_insert_self _ _ _, fun t ht => ?_⟩
    rw [dictLookup_insert_ne _ _ _ _ (fun he => ht he.symm)]

theorem tripTimesStep_spec {tt tt' : List (String × TW)} {r : StRow}
    {processed : List StRow}
    (hstep : tripTimesStep tt r = Except.ok tt')
    (hinv : ∀ t w, dictLookup tt t = some w → twSpec processed t w)
    (hkeys : ∀ t, (dictLookup tt t).isSome = true ↔
      t ∈ processed.map (fun x => x.trip_id)) :
    (∀ t w, dictLookup tt' t = some w → twSpec (processed ++ [r]) t w) ∧
    (∀ t, (dictLookup tt' t).isSome = true ↔
      t ∈ (processed ++ [r]).map (fun x => x.trip_id)) := by
  have hfresh : ∀ t, dictLookup tt t = none →
      ∀ x ∈ processed, x.trip_id = t → False := by
    intro t hn x hx hxt
    have hs := (hkeys t).2 (List.mem_map.2 ⟨x, hx, hxt⟩)
    rw [hn] at hs
    simp at hs
  have hkeys' : ∀ (f : String → Option TW),
      (∀ t, t = r.trip_id → (f t).isSome = true) →
      (∀ t, t ≠ r.trip_id → f t = dictLookup tt t) →
      ∀ t, (f t).isSome = true ↔
        t ∈ (processed ++ [r]).map (fun x => x.trip_id) := by
    intro f hself hother t
    simp only [List.map_append, List.map_cons, List.map_nil, List.mem_append,
      List.mem_singleton]
    by_cases ht : t = r.trip_id
    · exact iff_of_true (hself t ht) (Or.inr ht)
    · rw [hother t ht, hkeys t]
      constructor
      · exact fun h => Or.inl h
      · rintro (h | h)
        · exact h
        · exact absurd h ht
  by_cases hval : validRow r
  · obtain ⟨a, hA⟩ := Option.isSome_iff_exists.1 hval.1
    obtain ⟨d, hD⟩ := Option.isSome_iff_exists.1 hval.2
    obtain ⟨q, w₀, hq, hw₀, hself, hother⟩ := tripTimesStep_valid hA hD hstep
    constructor
    · intro t w hw
      by_cases ht : t = r.trip_id
      · subst ht
        rw [hself] at hw
        obtain rfl := (Option.some.inj hw).symm
        have hbase : twSpec processed r.trip_id w₀ := by
          rcases hw₀ with hw₀ | ⟨hn, rfl⟩
          · exact hinv _ _ hw₀
          · exact Or.inl ⟨rfl, fun x hx h1 _ => hfresh _ hn x hx h1⟩
        exact twSpec_update hbase rfl hval hq hD hA
      · rw [hother t ht] at hw
        exact twSpec_append_skip (hinv t w hw) (Or.inl (fun he => ht he.symm))
    · refine hkeys' (fun t => dictLookup tt' t) (fun t ht => ?_) hother
      subst ht
      show (dictLookup tt' r.trip_id).isSome = true
      rw [hself]
      rfl
  · rcases hlk : dictLookup tt r.trip_id with _ | w₀
    · obtain rfl :=
        (Except.ok.inj ((tripTimesStep_invalid_fresh hval hlk).symm.trans hstep)).symm
      constructor
      · intro t w hw
        by_cases ht : t = r.trip_id
        · subst ht
          rw [dictLookup_insert_self] at hw
          obtain rfl := (Option.some.inj hw).symm
          refine Or.inl ⟨rfl, fun x hx h1 h2 => ?_⟩
          rcases List.mem_append.1 hx with hx | hx
          · exact hfresh _ hlk x hx h1
          · rw [List.mem_singleton.1 hx] at h2
            exact hval h2
        · rw [dictLookup_insert_ne _ _ _ _ (fun he => ht he.symm)] at hw
          exact twSpec_append_skip (hinv t w hw) (Or.inr hval)
      · refine hkeys' _ (fun t ht => ?_)
          (fun t ht => dictLookup_insert_ne _ _ _ _ (fun he => ht he.symm))
        subst ht
        show (dictLookup (dictInsert tt r.trip_id
          ⟨none, none, none, none⟩) r.trip_id).isSome = true
        rw [dictLookup_insert_self]
        rfl
    · have heq :=
        Except.ok.inj ((tripTimesStep_invalid_seen hval hlk).symm.trans hstep)
      rw [← heq]
      constructor
      · intro t w hw
        exact twSpec_append_skip (hinv t w hw) (Or.inr hval)
      · refine hkeys' _ (fun t ht => ?_) (fun t _ => rfl)
        subst ht
        show (dictLookup tt r.trip_id).isSome = true
        rw [hlk]
        rfl

theorem gtfsTripTimes_fold_spec :
    ∀ (rows processed : List StRow) (tt tt' : List (String × TW)),
    foldE tripTimesStep tt rows = Except.ok tt' →
    (∀ t w, dictLookup tt t = some w → twSpec processed t w) →
    (∀ t, (dictLookup tt t).isSome = true ↔
      t ∈ processed.map (fun x => x.trip_id)) →
    (∀ t w, dictLookup tt' t = some w → twSpec (processed ++ rows) t w) ∧
    (∀ t, (dictLookup tt' t).isSome = true ↔
      t ∈ (processed ++ rows).map (fun x => x.trip_id))
  | [], processed, tt, tt', h, hinv, hkeys => by
    cases h
    constructor
    · simpa using hinv
    · simpa using hkeys
  | r :: rs, processed, tt, tt', h, hinv, hkeys => by
    rw [foldE] at h
    rcases hstep : tripTimesStep tt r with e | tt₁ <;> rw [hstep] at h
    · exact absurd h (by simp)
    · obtain ⟨hinv₁, hkeys₁⟩ := tripTimesStep_spec hstep hinv hkeys
      have := gtfsTripTimes_fold_spec rs (processed ++ [r]) tt₁ tt' h hinv₁ hkeys₁
      simpa [List.append_assoc] using this

theorem gtfsTripTimes_spec {rows : List StRow} {tt : List (String × TW)}
    (h : gtfsTripTimes rows = Except.ok tt) :
    ∀ t w, dictLookup tt t = some w → twSpec rows t w := by
  have h0 := gtfsTripTimes_fold_spec rows [] [] tt h
    (fun t w hw => by simp [dictLookup] at hw) (fun t => by simp [dictLookup])
  simpa using h0.1

theorem tripTimesStep_valid_eq {tt : List (String × TW)} {r : StRow} {a d q : Int}
    (ha : time_as_timedelta r.arrival_time = some a)
    (hd : time_as_timedelta r.departure_time = some d)
    (hq : pyInt r.stop_sequence.toList = some q) :
    ∃ tt', tripTimesStep tt r = Except.ok tt' ∧
      dictLookup tt' r.trip_id =
        some (twUpdate
          (match dictLookup tt r.trip_id with
            | none => ⟨none, none, none, none⟩
            | some w => w) q d a) ∧
      ∀ t, t ≠ r.trip_id → dictLookup tt' t = dictLookup tt t := by
  rcases hlk : dictLookup tt r.trip_id with _ | w₀
  · refine ⟨dictInsert (dictInsert tt r.trip_id ⟨none, none, none, none⟩) r.trip_id
      (twUpdate ⟨none, none, none, none⟩ q d a), ?_, ?_, ?_⟩
    · simp only [tripTimesStep, hlk, ha, hd, hq, dictLookup_insert_self]
    · rw [dictLookup_insert_self]
    · intro t ht
      rw [dictLookup_insert_ne _ _ _ _ (fun he => ht he.symm),
        dictLookup_insert_ne _ _ _ _ (fun he => ht he.symm)]
  · refine ⟨dictInsert tt r.trip_id (twUpdate w₀ q d a), ?_, ?_, ?_⟩
    · simp only [tripTimesStep, hlk, ha, hd, hq]
    · rw [dictLookup_insert_self]
    · intro t ht
      rw [dictLookup_insert_ne _ _ _ _ (fun he => ht he.symm)]

theorem tripTimesStep_lookup_ne {tt tt' : List (String × TW)} {r : StRow}
    (hstep : tripTimesStep tt r = Except.ok tt') {t : String}
    (ht : t ≠ r.trip_id) : dictLookup tt' t = dictLookup tt t := by
  by_cases hval : validRow r
  · obtain ⟨a, hA⟩ := Option.isSome_iff_exists.1 hval.1
    obtain ⟨d, hD⟩ := Option.isSome_iff_exists.1 hval.2
    obtain ⟨q, w₀, hq, hw₀, hself, hother⟩ := tripTimesStep_valid hA hD hstep
    exact hother t ht
  · rcases hlk : dictLookup tt r.trip_id with _ | w₀
    · obtain rfl := (Except.ok.inj
        ((tripTimesStep_invalid_fresh hval hlk).symm.trans hstep)).symm
      exact dictLookup_insert_ne _ _ _ _ (fun he => ht he.symm)
    · have heq := Except.ok.inj
        ((tripTimesStep_invalid_seen hval hlk).symm.trans hstep)
      rw [← heq]

theorem tripTimesStep_agree {tt b tt' : List (String × TW)} {r : StRow}
    (hstep : tripTimesStep tt r = Except.ok tt')
    (hb : dictLookup tt r.trip_id = dictLookup b r.trip_id) :
    ∃ b', tripTimesStep b r = Except.ok b' ∧
      dictLookup b' r.trip_id = dictLookup tt' r.trip_id := by
  by_cases hval : validRow r
  · obtain ⟨a, hA⟩ := Option.isSome_iff_exists.1 hval.1
    obtain ⟨d, hD⟩ := Option.isSome_iff_exists.1 hval.2
    obtain ⟨q, w₀, hq, hw₀, hself, hother⟩ := tripTimesStep_valid hA hD hstep
    obtain ⟨b', hbstep, hbl, hbo⟩ := @tripTimesStep_valid_eq b r a d q hA hD hq
    refine ⟨b', hbstep, ?_⟩
    rw [hbl, hself, ← hb]
    rcases hw₀ with hw | ⟨hn, rfl⟩
    · rw [hw]
    · rw [hn]
  · rcases hlk : dictLookup tt r.trip_id with _ | w₀
    · have hbn : dictLookup b r.trip_id = none := by rw [← hb, hlk]
      obtain rfl := (Except.ok.inj
        ((tripTimesStep_invalid_fresh hval hlk).symm.trans hstep)).symm
      exact ⟨_, tripTimesStep_invalid_fresh hval hbn,
        by rw [dictLookup_insert_self, dictLookup_insert_self]⟩
    · have hbs : dictLookup b r.trip_id = some w₀ := by rw [← hb, hlk]
      have heq := Except.ok.inj
        ((tripTimesStep_invalid_seen hval hlk).symm.trans hstep)
      refine ⟨b, tripTimesStep_invalid_seen hval hbs, ?_⟩
      rw [← heq, ← hb]

theorem tripTimes_filter (t : String) :
    ∀ (rows : List StRow) (tt₁ tt₂ tt₁' : List (String × TW)),
    dictLookup tt₁ t = dictLookup tt₂ t →
    foldE tripTimesStep tt₁ rows = Except.ok tt₁' →
    ∃ tt₂', foldE tripTimesStep tt₂ (rows.filter (fun r => r.trip_id = t)) =
        Except.ok tt₂' ∧ dictLookup tt₂' t = dictLookup tt₁' t
  | [], tt₁, tt₂, tt₁', hagree, h => by
    cases h
    exact ⟨tt₂, rfl, hagree.symm⟩
  | r :: rs, tt₁, tt₂, tt₁', hagree, h => by
    rw [foldE] at h
    rcases hstep : tripTimesStep tt₁ r with e | ttmid <;> rw [hstep] at h
    · exact absurd h (by simp)
    by_cases hrt : r.trip_id = t
    · rw [List.filter_cons_of_pos (by simp [hrt])]
      have hb : dictLookup tt₁ r.trip_id = dictLookup tt₂ r.trip_id := by
        rw [hrt]
        exact hagree
      obtain ⟨b', hbstep, hbl⟩ := tripTimesStep_agree hstep hb
      have hagree' : dictLookup ttmid t = dictLookup b' t := by
        rw [← hrt]
        exact hbl.symm
      obtain ⟨tt₂', h2, hl⟩ := tripTimes_filter t rs ttmid b' tt₁' hagree' h
      rw [foldE, hbstep]
      exact ⟨tt₂', h2, hl⟩
    · rw [List.filter_cons_of_neg (by simp [hrt])]
      have hagree' : dictLookup ttmid t = dictLookup tt₂ t := by
        rw [← hagree]
        exact tripTimesStep_lookup_ne hstep (fun he => hrt he.symm)
      exact tripTimes_filter t rs ttmid tt₂ tt₁' hagree' h

/-- **C5**: for every emitted route feature, `duration_sec` equals the
arrival time at the largest stop sequence minus the departure time at the
smallest stop sequence, in integer seconds (sign unconstrained, so a
reversed window may yield a negative value), of exactly one trip — the trip
named by the first trips-table row seen for that route — and this window is
determined by that trip's stop-times rows alone: it is unchanged when every
other trip's rows are filtered away. -/
theorem C5_duration_sec (stopTimes : List StRow) (hasDist : Bool)
    (shapeRows : List ShRow) (tripRows : List TripRow)
    (routesHeader : List String) (routeRows : List (List String))
    (out : RouteOut) (tt : List (String × TW))
    (htt : gtfsTripTimes stopTimes = Except.ok tt)
    (hrun : gtfs_routes stopTimes hasDist shapeRows tripRows routesHeader
      routeRows = Except.ok out) :
    ∀ f ∈ out.features, ∃ t es ls d a,
      firstTripOf tripRows f.fid = some t ∧
      dictLookup tt t = some ⟨some es, some ls, some d, some a⟩ ∧
      dictLookup f.props "duration_sec" = some (PVal.i (a - d)) ∧
      (∃ r ∈ stopTimes, r.trip_id = t ∧ validRow r ∧
        pyInt r.stop_sequence.toList = some es ∧
        time_as_timedelta r.departure_time = some d) ∧
      (∃ r ∈ stopTimes, r.trip_id = t ∧ validRow r ∧
        pyInt r.stop_sequence.toList = some ls ∧
        time_as_timedelta r.arrival_time = some a) ∧
      (∀ r ∈ stopTimes, r.trip_id = t → validRow r →
        ∃ q, pyInt r.stop_sequence.toList = some q ∧ es ≤ q ∧ q ≤ ls) ∧
      (∃ tt₂, gtfsTripTimes (stopTimes.filter (fun r => r.trip_id = t)) =
          Except.ok tt₂ ∧
        dictLookup tt₂ t = some ⟨some es, some ls, some d, some a⟩) := by
  obtain ⟨tt', acc, tacc, trips, ricol, htt', hsh, htr, hsel, hcol, hfold⟩ :=
    gtfs_routes_ok hrun
  have httq : tt = tt' := Except.ok.inj (htt.symm.trans htt')
  subst httq
  obtain ⟨df, dw, hf, hw, horig, -⟩ := routesFold_frame hasDist
    (assembleLines acc.shapes) acc.shape_lengths tacc.trips_ref tacc.route_time
    trips routesHeader ricol routeRows ⟨[], []⟩ out hfold
  intro f hfm
  rw [hf] at hfm
  simp only [List.nil_append] at hfm
  obtain ⟨row, hrowm, hfeat⟩ := horig f hfm
  obtain ⟨rid, shape, cands, refs, w, line, hrowg, htl, htrr, hcs, hrtl,
    ⟨a, d, harr, hdep, hdur⟩, hln, hfid, hgeom, hsid, hsrefs⟩ :=
    routeFeature?_some hfeat
  obtain ⟨hkeys, hcount, hrt, hnd⟩ := buildTripsRef_spec htr
  have hrt' := hrt rid
  rw [hrtl] at hrt'
  rcases hft : firstTripOf tripRows rid with _ | t
  · rw [hft] at hrt'
    have hcontra : some w = (none : Option TW) := hrt'
    cases hcontra
  rw [hft] at hrt'
  have hwt : dictLookup tt t = some w := hrt'.symm
  have hspec := gtfsTripTimes_spec htt t w hwt
  rcases hspec with ⟨hwz, -⟩ | ⟨es, ls, d₀, a₀, hweq, hdepw, harrw, hboundw⟩
  · rw [hwz] at harr
    exact Option.noConfusion harr
  subst hweq
  have ha2 : a = a₀ := (Option.some.inj harr).symm
  have hd2 : d = d₀ := (Option.some.inj hdep).symm
  subst ha2
  subst hd2
  refine ⟨t, es, ls, d, a, by rw [hfid]; exact hft, hwt, hdur, hdepw, harrw,
    hboundw, ?_⟩
  obtain ⟨tt₂, h2, hl⟩ := tripTimes_filter t stopTimes [] [] tt rfl htt
  refine ⟨tt₂, h2, ?_⟩
  rw [hl]
  exact hwt

/-- Concrete instance of C5: route `R1`'s first trip is `T1`; its window is
sequences 1..2 with departure 1800 s and arrival 7200 s, so
`duration_sec = 5400`, and the window survives filtering to `T1`'s rows. -/
theorem C5_duration_sec_witness :
    ∃ t es ls d a,
      firstTripOf [⟨"R1", "SA", "T1"⟩, ⟨"R1", "SA", "T2"⟩] "R1" = some t ∧
      dictLookup [("T1", (⟨some 1, some 2, some 1800, some 7200⟩ : TW)),
          ("T2", (⟨some 1, some 1, some 0, some 0⟩ : TW))] t =
        some ⟨some es, some ls, some d, some a⟩ ∧
      dictLookup [("route_id", PVal.s "R1"), ("shape_id", PVal.s "SA"),
          ("shape_refs", PVal.n 2), ("duration_sec", PVal.i 5400)]
        "duration_sec" = some (PVal.i (a - d)) ∧
      (∃ r ∈ [(⟨"T1", "1:0:0", "0:30:0", "1"⟩ : StRow),
          ⟨"T1", "2:0:0", "1:45:0", "2"⟩, ⟨"T2", "0:0:0", "0:0:0", "1"⟩],
        r.trip_id = t ∧ validRow r ∧
        pyInt r.stop_sequence.toList = some es ∧
        time_as_timedelta r.departure_time = some d) ∧
      (∃ r ∈ [(⟨"T1", "1:0:0", "0:30:0", "1"⟩ : StRow),
          ⟨"T1", "2:0:0", "1:45:0", "2"⟩, ⟨"T2", "0:0:0", "0:0:0", "1"⟩],
        r.trip_id = t ∧ validRow r ∧
        pyInt r.stop_sequence.toList = some ls ∧
        time_as_timedelta r.arrival_time = some a) ∧
      (∀ r ∈ [(⟨"T1", "1:0:0", "0:30:0", "1"⟩ : StRow),
          ⟨"T1", "2:0:0", "1:45:0", "2"⟩, ⟨"T2", "0:0:0", "0:0:0", "1"⟩],
        r.trip_id = t → validRow r →
        ∃ q, pyInt r.stop_sequence.toList = some q ∧ es ≤ q ∧ q ≤ ls) ∧
      (∃ tt₂, gtfsTripTimes
          (([(⟨"T1", "1:0:0", "0:30:0", "1"⟩ : StRow),
            ⟨"T1", "2:0:0", "1:45:0", "2"⟩,
            ⟨"T2", "0:0:0", "0:0:0", "1"⟩]).filter (fun r => r.trip_id = t)) =
          Except.ok tt₂ ∧
        dictLookup tt₂ t = some ⟨some es, some ls, some d, some a⟩) := by
  have h := C5_duration_sec
    [⟨"T1", "1:0:0", "0:30:0", "1"⟩, ⟨"T1", "2:0:0", "1:45:0", "2"⟩,
      ⟨"T2", "0:0:0", "0:0:0", "1"⟩]
    false [⟨"SA", "0", "0", "1", ""⟩]
    [⟨"R1", "SA", "T1"⟩, ⟨"R1", "SA", "T2"⟩] ["route_id"] [["R1"]]
    ⟨[⟨[((0 : ℚ), (0 : ℚ))],
      [("route_id", PVal.s "R1"), ("shape_id", PVal.s "SA"),
        ("shape_refs", PVal.n 2), ("duration_sec", PVal.i 5400)], "R1"⟩], []⟩
    [("T1", ⟨some 1, some 2, some 1800, some 7200⟩),
      ("T2", ⟨some 1, some 1, some 0, some 0⟩)]
    rfl rfl
    ⟨[((0 : ℚ), (0 : ℚ))],
      [("route_id", PVal.s "R1"), ("shape_id", PVal.s "SA"),
        ("shape_refs", PVal.n 2), ("duration_sec", PVal.i 5400)], "R1"⟩
    (List.mem_singleton.2 rfl)
  exact h

/-! ## C1 and C2: crash cases of the routes pipeline -/

/-- **C1 (code behaviour at the claim's scenario)**: when the first trip row
seen for a route names a trip with no usable time window, the conversion
does not report and continue — it raises.  With every stop-times row of
`T1` malformed, the trip's window stays all-`None` and the routes loop
raises `TypeError` subtracting `None` values; with no stop-times rows at
all, the trips loop raises `KeyError` reading `trip_times[trip_id]`. -/
theorem C1_no_window_crash :
    gtfs_routes [⟨"T1", "bad", "bad", "1"⟩] false [⟨"S1", "0", "0", "1", ""⟩]
        [⟨"R1", "S1", "T1"⟩] ["route_id"] [["R1"]] =
      Except.error "TypeError: route time window is None" ∧
    gtfs_routes [] false [⟨"S1", "0", "0", "1", ""⟩]
        [⟨"R1", "S1", "T1"⟩] ["route_id"] [["R1"]] =
      Except.error "KeyError: trip_times" :=
  ⟨rfl, rfl⟩

/-- **C2 (code behaviour at the claim's scenario)**: when the distance
column is present but empty in every row of the selected shape, the feature
only omits `shape_length` while no other shape declared a distance; as soon
as another shape (`SA`) declares one, the lookup
`shape_lengths[props[shape_id]]` raises `KeyError` instead of omitting the
property. -/
theorem C2_shape_length_crash :
    (∃ out, gtfs_routes [⟨"T1", "1:0:0", "0:30:0", "1"⟩] true
        [⟨"SB", "0", "0", "1", ""⟩] [⟨"R1", "SB", "T1"⟩] ["route_id"] [["R1"]] =
        Except.ok out ∧
      ∀ f ∈ out.features, dictLookup f.props "shape_length" = none) ∧
    gtfs_routes [⟨"T1", "1:0:0", "0:30:0", "1"⟩] true
        [⟨"SA", "0", "0", "1", "5"⟩, ⟨"SB", "0", "0", "1", ""⟩]
        [⟨"R1", "SB", "T1"⟩] ["route_id"] [["R1"]] =
      Except.error "KeyError: shape_lengths" := by
  refine ⟨⟨⟨[⟨[((0 : ℚ), (0 : ℚ))],
    [("route_id", PVal.s "R1"), ("shape_id", PVal.s "SB"),
      ("shape_refs", PVal.n 1), ("duration_sec", PVal.i 1800)], "R1"⟩], []⟩,
    rfl, ?_⟩, rfl⟩
  intro f hf
  rw [List.mem_singleton.1 hf]
  rfl

/-! ## C8: the stops feature loop -/

theorem find?_unique {β : Type} {p : β → Bool} {x : β} :
    ∀ {l : List β}, x ∈ l → p x = true →
    (∀ y ∈ l, p y = true → y = x) → l.find? p = some x := by
  intro l
  induction l with
  | nil => intro hx; cases hx
  | cons a t ih =>
    intro hx hpx huniq
    by_cases hpa : p a = true
    · rw [List.find?_cons_of_pos t hpa, huniq a (List.mem_cons_self a t) hpa]
    · rw [List.find?_cons_of_neg t hpa]
      rcases List.mem_cons.1 hx with rfl | hxt
      · exact absurd hpx hpa
      · exact ih hxt hpx (fun y hy hpy => huniq y (List.mem_cons_of_mem a hy) hpy)

/-- Characterization of the property fold: a key `nm` untouched by the
enumerated pairs keeps its initial binding, and otherwise its binding is the
row cell of the last pair that hit it (`propHit`). -/
theorem propsFold_lookup (exclude row : List String) :
    ∀ (l : List (Nat × String)) (ps ps' : List (String × String)),
    foldE (propsStep exclude row) ps l = Except.ok ps' →
    ∀ nm : String,
      (l.reverse.find? (propHit row exclude nm) = none →
        dictLookup ps' nm = dictLookup ps nm) ∧
      (∀ q, l.reverse.find? (propHit row exclude nm) = some q →
        dictLookup ps' nm = row.get? q.1) := by
  intro l
  induction l with
  | nil =>
    intro ps ps' hf nm
    have hps : ps = ps' := by
      rw [foldE] at hf
      exact Except.ok.inj hf
    subst hps
    refine ⟨fun _ => rfl, fun q hq => ?_⟩
    simp at hq
  | cons q t ih =>
    intro ps ps' hf nm
    rw [foldE] at hf
    rw [List.reverse_cons, List.find?_append]
    by_cases hex : q.2 ∈ exclude
    · have hq : propsStep exclude row ps q = Except.ok ps := by
        rw [propsStep, if_pos hex]
      simp only [hq] at hf
      have hqf : propHit row exclude nm q = false := by
        rw [propHit]; simp [hex]
      have h1 : [q].find? (propHit row exclude nm) = none := by
        simp [List.find?, hqf]
      rw [h1, Option.or_none]
      exact ih ps ps' hf nm
    · have hq0 : propsStep exclude row ps q =
          (match row.get? q.1 with
           | none => Except.error "IndexError: row shorter than header"
           | some v => Except.ok (if v ≠ "" then dictInsert ps q.2 v else ps)) := by
        rw [propsStep, if_neg hex]
      rcases hc : row.get? q.1 with _ | v
      · rw [hc] at hq0
        simp only [hq0] at hf
        exact absurd hf (by simp)
      · rw [hc] at hq0
        have hc2 : row[q.1]? = some v := by rw [← List.get?_eq_getElem?]; exact hc
        by_cases hv : v = ""
        · have hq : propsStep exclude row ps q = Except.ok ps := by
            rw [hq0]; simp [hv]
          simp only [hq] at hf
          have hqf : propHit row exclude nm q = false := by
            rw [propHit]; simp [hc2, hv]
          have h1 : [q].find? (propHit row exclude nm) = none := by
            simp [List.find?, hqf]
          rw [h1, Option.or_none]
          exact ih ps ps' hf nm
        · have hq : propsStep exclude row ps q = Except.ok (dictInsert ps q.2 v) := by
            rw [hq0]; simp [hv]
          simp only [hq] at hf
          obtain ⟨ha, hb⟩ := ih (dictInsert ps q.2 v) ps' hf nm
          rcases hft : t.reverse.find? (propHit row exclude nm) with _ | p
          · rcases hph : propHit row exclude nm q with _ | _
            · have h1 : [q].find? (propHit row exclude nm) = none := by
                simp [List.find?, hph]
              rw [h1]
              have hne : q.2 ≠ nm := by
                rw [propHit] at hph
                simp [hc2, hv, hex] at hph
                exact hph
              refine ⟨fun _ => ?_, fun q' hq' => ?_⟩
              · rw [ha hft]
                exact dictLookup_insert_ne ps q.2 nm v hne
              · simp at hq'
            · have h1 : [q].find? (propHit row exclude nm) = some q := by
                simp [List.find?, hph]
              rw [h1]
              have heq : q.2 = nm := by
                rw [propHit] at hph
                simp at hph
                exact hph.1.1
              refine ⟨fun hn => ?_, fun q' hq' => ?_⟩
              · simp at hn
              · have hq2 : q' = q := by
                  simp only [Option.none_or] at hq'
                  exact (Option.some.inj hq').symm
                subst hq2
                rw [ha hft, ← heq, dictLookup_insert_self, hc]
          · refine ⟨fun hn => ?_, fun q' hq' => ?_⟩
            · simp at hn
            · have hq2 : q' = p := by
                have : (Option.some p).or ([q].find? (propHit row exclude nm)) = some p := rfl
                rw [this] at hq'
                exact (Option.some.inj hq').symm
              rw [hq2]
              exact hb p hft

/-- A key listed in `exclude` is never present in the built properties. -/
theorem mkProps_lookup_excluded {exclude header row : List String}
    {props : List (String × String)} {nm : String} (hh : nm ∈ exclude)
    (hmk : mkProps exclude header row = Except.ok props) :
    dictLookup props nm = none := by
  have h0 := (propsFold_lookup exclude row header.enum [] props hmk nm).1
  have hfind : header.enum.reverse.find? (propHit row exclude nm) = none := by
    apply List.find?_eq_none.2
    intro p hp hcon
    rw [propHit] at hcon
    simp at hcon
    exact hcon.1.2 (by rw [hcon.1.1]; exact hh)
  rw [h0 hfind]
  rfl

/-- With pairwise-distinct column names, a non-excluded column with a
non-empty cell is present in the built properties with the cell value. -/
theorem mkProps_lookup_col {exclude header row : List String}
    {props : List (String × String)} (hnd : header.Nodup)
    (hmk : mkProps exclude header row = Except.ok props)
    (i : Nat) (hi : i < header.length) (v : String)
    (hx : header.get ⟨i, hi⟩ ∉ exclude)
    (hv : row.get? i = some v) (hne : v ≠ "") :
    dictLookup props (header.get ⟨i, hi⟩) = some v := by
  have h0 := (propsFold_lookup exclude row header.enum [] props hmk
    (header.get ⟨i, hi⟩)).2
  have hv2 : row[i]? = some v := by rw [← List.get?_eq_getElem?]; exact hv
  have hmem : (i, header.get ⟨i, hi⟩) ∈ header.enum :=
    List.mem_enum_iff_get?.2 (List.get?_eq_get hi)
  have hph : propHit row exclude (header.get ⟨i, hi⟩) (i, header.get ⟨i, hi⟩) = true := by
    rw [propHit]
    simp [hv2, hne]
    exact hx
  have huniq : ∀ y ∈ header.enum.reverse,
      propHit row exclude (header.get ⟨i, hi⟩) y = true →
      y = (i, header.get ⟨i, hi⟩) := by
    intro y hy hpy
    have hy2 := List.mem_enum_iff_get?.1 (List.mem_reverse.1 hy)
    rw [propHit] at hpy
    simp at hpy
    obtain ⟨hlt, -⟩ := List.get?_eq_some.1 hy2
    have h2 : header.get? y.1 = header.get? i := by
      rw [hy2, List.get?_eq_get hi]
      exact congrArg some hpy.1.1
    have h3 : y.1 = i := List.get?_inj hlt hnd h2
    rw [Prod.ext_iff]
    exact ⟨h3, hpy.1.1⟩
  have hfind : header.enum.reverse.find?
      (propHit row exclude (header.get ⟨i, hi⟩)) = some (i, header.get ⟨i, hi⟩) :=
    find?_unique (List.mem_reverse.2 hmem) hph huniq
  rw [h0 _ hfind]
  exact hv

/-- Destructuring a successful run of the stop-row body. -/
theorem stopFeature_ok {header : List String} {latCol lngCol idCol : Nat}
    {row : List String} {f : StopFeature}
    (h : stopFeature header latCol lngCol idCol row = Except.ok f) :
    ∃ latS lngS lat lng props,
      row.get? latCol = some latS ∧ row.get? lngCol = some lngS ∧
      parseDec latS = some lat ∧ parseDec lngS = some lng ∧
      mkProps ["stop_lat", "stop_lon"] header row = Except.ok props ∧
      row.get? idCol = some f.fid ∧
      f = ⟨(lng, lat), props, f.fid⟩ := by
  rw [stopFeature] at h
  rcases h1 : row.get? latCol with _ | latS <;>
    rcases h2 : row.get? lngCol with _ | lngS <;> simp only [h1, h2] at h
  · exact absurd h (by simp)
  · exact absurd h (by simp)
  · exact absurd h (by simp)
  rcases h3 : parseDec latS with _ | lat <;>
    rcases h4 : parseDec lngS with _ | lng <;> simp only [h3, h4] at h
  · exact absurd h (by simp)
  · exact absurd h (by simp)
  · exact absurd h (by simp)
  rcases h5 : mkProps ["stop_lat", "stop_lon"] header row with e | props <;>
    simp only [h5] at h
  · exact absurd h (by simp)
  rcases h6 : row.get? idCol with _ | rid <;> simp only [h6] at h
  · exact absurd h (by simp)
  obtain rfl := (Except.ok.inj h).symm
  exact ⟨latS, lngS, lat, lng, props, rfl, rfl, h3, h4, rfl, rfl, rfl⟩

/-- The stops loop appends exactly one feature per consumed row, in order. -/
theorem stopsFold_ok {header : List String} {latCol lngCol idCol : Nat} :
    ∀ {rows : List (List String)} {fs out : List StopFeature},
    foldE (stopsStep header latCol lngCol idCol) fs rows = Except.ok out →
    ∃ g : List StopFeature, out = fs ++ g ∧ g.length = rows.length ∧
      ∀ k (hk : k < rows.length), ∃ hk2 : k < g.length,
        stopFeature header latCol lngCol idCol (rows.get ⟨k, hk⟩) =
          Except.ok (g.get ⟨k, hk2⟩) := by
  intro rows
  induction rows with
  | nil =>
    intro fs out hf
    rw [foldE] at hf
    obtain rfl := (Except.ok.inj hf).symm
    exact ⟨[], by simp, rfl, fun k hk => absurd hk (by simp)⟩
  | cons r t ih =>
    intro fs out hf
    rw [foldE] at hf
    rcases hs : stopsStep header latCol lngCol idCol fs r with e | fs₀ <;>
      simp only [hs] at hf
    · exact absurd hf (by simp)
    rw [stopsStep] at hs
    rcases hsf : stopFeature header latCol lngCol idCol r with e | f <;>
      simp only [hsf] at hs
    · exact absurd hs (by simp)
    obtain rfl := (Except.ok.inj hs).symm
    obtain ⟨g, hout, hlen, hpos⟩ := ih hf
    refine ⟨f :: g, by simp [hout], by simp [hlen], ?_⟩
    intro k hk
    match k with
    | 0 => exact ⟨by simp, hsf⟩
    | k + 1 =>
      obtain ⟨hk2, hfe⟩ := hpos k (Nat.lt_of_succ_lt_succ hk)
      exact ⟨by simpa using Nat.succ_lt_succ hk2, hfe⟩

/-- **C8**: for every stops-table row, the conversion emits exactly one
point feature (features are in row order and equinumerous with the rows);
its geometry is the (longitude, latitude) pair decoded as exact decimals
from the `stop_lon` and `stop_lat` cells, its identifier is the `stop_id`
cell value, its properties contain every other column whose cell is
non-empty (with the cell value), and never contain `stop_lat` or
`stop_lon`. -/
theorem C8_stop_features (header : List String) (rows : List (List String))
    (latCol lngCol idCol : Nat) (feats : List StopFeature)
    (hnd : header.Nodup)
    (hlat : colIndex header "stop_lat" = some latCol)
    (hlng : colIndex header "stop_lon" = some lngCol)
    (hid : colIndex header "stop_id" = some idCol)
    (hrun : gtfs_stops header rows = Except.ok feats) :
    feats.length = rows.length ∧
    ∀ k (hk : k < rows.length), ∃ hk2 : k < feats.length,
      (∃ latS lngS lat lng,
        (rows.get ⟨k, hk⟩).get? latCol = some latS ∧
        (rows.get ⟨k, hk⟩).get? lngCol = some lngS ∧
        parseDec latS = some lat ∧ parseDec lngS = some lng ∧
        (feats.get ⟨k, hk2⟩).coord = (lng, lat)) ∧
      (rows.get ⟨k, hk⟩).get? idCol = some (feats.get ⟨k, hk2⟩).fid ∧
      dictLookup (feats.get ⟨k, hk2⟩).props "stop_lat" = none ∧
      dictLookup (feats.get ⟨k, hk2⟩).props "stop_lon" = none ∧
      ∀ i (hi : i < header.length) v,
        header.get ⟨i, hi⟩ ≠ "stop_lat" → header.get ⟨i, hi⟩ ≠ "stop_lon" →
        (rows.get ⟨k, hk⟩).get? i = some v → v ≠ "" →
        dictLookup (feats.get ⟨k, hk2⟩).props (header.get ⟨i, hi⟩) = some v := by
  simp only [gtfs_stops, hlat, hlng, hid] at hrun
  obtain ⟨g, hout, hlen, hpos⟩ := stopsFold_ok hrun
  have hfg : g = feats := by simpa using hout.symm
  subst hfg
  refine ⟨hlen, ?_⟩
  intro k hk
  obtain ⟨hk2, hfe⟩ := hpos k hk
  obtain ⟨latS, lngS, lat, lng, props, h1, h2, h3, h4, h5, h6, h7⟩ := stopFeature_ok hfe
  have hp : (g.get ⟨k, hk2⟩).props = props := congrArg StopFeature.props h7
  have hco : (g.get ⟨k, hk2⟩).coord = (lng, lat) := congrArg StopFeature.coord h7
  refine ⟨hk2, ⟨latS, lngS, lat, lng, h1, h2, h3, h4, hco⟩, h6, ?_, ?_, ?_⟩
  · rw [hp]
    exact mkProps_lookup_excluded (by simp) h5
  · rw [hp]
    exact mkProps_lookup_excluded (by simp) h5
  · intro i hi v hx1 hx2 hv hne
    rw [hp]
    refine mkProps_lookup_col hnd h5 i hi v ?_ hv hne
    simp
    exact ⟨hx1, hx2⟩

theorem C8_stop_features_witness :
    gtfs_stops ["stop_id", "stop_lat", "stop_lon", "stop_name"]
        [["S1", "2", "3", "Main St"]] =
      Except.ok [⟨(3, 2), [("stop_id", "S1"), ("stop_name", "Main St")], "S1"⟩] ∧
    (["stop_id", "stop_lat", "stop_lon", "stop_name"] : List String).Nodup ∧
    ([(⟨(3, 2), [("stop_id", "S1"), ("stop_name", "Main St")], "S1"⟩ : StopFeature)]).length
      = [["S1", "2", "3", "Main St"]].length ∧
    dictLookup [("stop_id", "S1"), ("stop_name", "Main St")] "stop_lat" = none := by
  have hrun : gtfs_stops ["stop_id", "stop_lat", "stop_lon", "stop_name"]
      [["S1", "2", "3", "Main St"]] =
      Except.ok [⟨(3, 2), [("stop_id", "S1"), ("stop_name", "Main St")], "S1"⟩] := rfl
  have hthm := C8_stop_features ["stop_id", "stop_lat", "stop_lon", "stop_name"]
    [["S1", "2", "3", "Main St"]] 1 2 0
    [⟨(3, 2), [("stop_id", "S1"), ("stop_name", "Main St")], "S1"⟩]
    (by decide) rfl rfl rfl hrun
  refine ⟨hrun, by decide, hthm.1, ?_⟩
  obtain ⟨hk2, -, -, hla, -, -⟩ := hthm.2 0 (by decide)
  exact hla

end Gtfs
